import Mathlib

/-!
The postmanq consumer: queue topology, retry routing and prefetch sizing.

A shallow embedding of `consumer.go`.  Pointers are modelled explicitly where the
source shares objects: the seven delayed `*Binding` values of the package-level map
`delayedBindings` are objects of the `World`, and the per-binding map
`binding.delayedBindings` stores references to them.
-/

namespace Postmanq

/-! ## Tier table (consumer.go 11-63) -/

/-- Go `type DelayedBindingType int`; the constants below are its `iota` values. -/
abbrev DelayedBindingType := Int

abbrev DELAYED_BINDING_UNKNOWN : DelayedBindingType := 0
abbrev DELAYED_BINDING_SECOND : DelayedBindingType := 1
abbrev DELAYED_BINDING_MINUTE : DelayedBindingType := 2
abbrev DELAYED_BINDING_TEN_MINUTES : DelayedBindingType := 3
abbrev DELAYED_BINDING_THIRTY_MINUTES : DelayedBindingType := 4
abbrev DELAYED_BINDING_HOUR : DelayedBindingType := 5
abbrev DELAYED_BINDING_SIX_HOURS : DelayedBindingType := 6
abbrev DELAYED_BINDING_DAY : DelayedBindingType := 7

/-- Go `type ExchangeType string`. -/
abbrev ExchangeType := String

def EXCHANGE_TYPE_DIRECT : ExchangeType := "direct"
def EXCHANGE_TYPE_FANOUT : ExchangeType := "fanout"
def EXCHANGE_TYPE_TOPIC : ExchangeType := "topic"

/-- Format of the failure exchange and queue names. -/
def FAIL_BINDING : String := "%s.fail"

/-- Values stored in an `amqp.Table` by this program. -/
inductive TableValue where
  | int64 (v : Int)
  | str (s : String)
  deriving DecidableEq, Repr

/-- Go `amqp.Table` (`map[string]interface{}`), as an association list with unique keys;
the nil table is the empty list. -/
abbrev Table := List (String × TableValue)

/-- Map assignment `t[key] = value`: replaces the entry of `key`, or adds one. -/
def tableAssign : Table → String → TableValue → Table
  | [], key, value => [(key, value)]
  | (k, v) :: rest, key, value =>
    if k = key then (key, value) :: rest else (k, v) :: tableAssign rest key value

/-- Map read `t[key]`. -/
def tableGet (t : Table) (key : String) : Option TableValue :=
  t.lookup key

/-- Substitution of the single `%s` verb, on character lists. -/
def sprintfChars : List Char → List Char → List Char
  | '%' :: 's' :: rest, arg => arg ++ rest
  | c :: rest, arg => c :: sprintfChars rest arg
  | [], _ => []

/-- Go `fmt.Sprintf(format, arg)` for a format with one `%s` verb and a string argument. -/
def Sprintf (format arg : String) : String :=
  String.mk (sprintfChars format.data arg.data)

/-- Go `time.Duration`, in nanoseconds. -/
abbrev Duration := Int

def Second : Duration := 1000000000
def Minute : Duration := 60 * Second
def Hour : Duration := 60 * Minute

/-- Go `int64(d.Seconds())`: `Seconds` is the floating-point number of seconds and the
conversion truncates; for a whole number of seconds, as all seven tiers use, that is the
truncated quotient by one second. -/
def secondsInt64 (d : Duration) : Int :=
  Int.tdiv d Second

/-- The largest value of a Go `int` on a 64-bit platform. -/
def maxInt : Int := 9223372036854775807

/-- Go `int` arithmetic on a 64-bit platform: an exact result is reduced to its
two's-complement value, between `-maxInt - 1` and `maxInt`. -/
def wrapInt (x : Int) : Int :=
  (x + 9223372036854775808) % 18446744073709551616 - 9223372036854775808

/-- The fields of Go `type Binding struct` that every binding object uses (consumer.go
262-270).  The delayed and failure bindings are `Binding` values whose two unexported
fields stay nil, so they are values of this type.  Field `Kind` is the Go field `Type`. -/
structure Descriptor where
  Name : String := ""
  Exchange : String := ""
  ExchangeArgs : Table := []
  Queue : String := ""
  QueueArgs : Table := []
  Kind : ExchangeType := ""
  Routing : String := ""
  Handlers : Int := 0
  deriving DecidableEq, Repr

/-- Go `type Binding struct` of a configured binding.  `delayedBindings` is the map
`map[DelayedBindingType]*Binding`: each value is a pointer, named by the key of the
package-level `delayedBindings` entry whose object it points to.  `failBinding` points to
an object allocated for this binding alone and never written again, so it is held by
value. -/
structure Binding extends Descriptor where
  delayedBindings : List (DelayedBindingType × DelayedBindingType) := []
  failBinding : Option Descriptor := none
  deriving DecidableEq, Repr

/-- The package-level map `delayedBindings` as the program text initialises it. -/
def delayedBindings : List (DelayedBindingType × Descriptor) :=
  [ (DELAYED_BINDING_SECOND,
      { Name := "%s.dlx.second",
        QueueArgs := [("x-message-ttl", .int64 (secondsInt64 Second * 1000))] }),
    (DELAYED_BINDING_MINUTE,
      { Name := "%s.dlx.minute",
        QueueArgs := [("x-message-ttl", .int64 (secondsInt64 Minute * 1000))] }),
    (DELAYED_BINDING_TEN_MINUTES,
      { Name := "%s.dlx.ten.minutes",
        QueueArgs := [("x-message-ttl", .int64 (secondsInt64 (Minute * 10) * 1000))] }),
    (DELAYED_BINDING_THIRTY_MINUTES,
      { Name := "%s.dlx.thirty.minutes",
        QueueArgs := [("x-message-ttl", .int64 (secondsInt64 (Minute * 30) * 1000))] }),
    (DELAYED_BINDING_HOUR,
      { Name := "%s.dlx.hour",
        QueueArgs := [("x-message-ttl", .int64 (secondsInt64 Hour * 1000))] }),
    (DELAYED_BINDING_SIX_HOURS,
      { Name := "%s.dlx.six.hours",
        QueueArgs := [("x-message-ttl", .int64 (secondsInt64 (Hour * 6) * 1000))] }),
    (DELAYED_BINDING_DAY,
      { Name := "%s.dlx.day",
        QueueArgs := [("x-message-ttl", .int64 (secondsInt64 (Hour * 24) * 1000))] }) ]

/-- The package-level slice `limitBindings`. -/
def limitBindings : List DelayedBindingType :=
  [DELAYED_BINDING_SECOND, DELAYED_BINDING_MINUTE, DELAYED_BINDING_HOUR, DELAYED_BINDING_DAY]

/-- The package-level map `bindingsChain`: current tier to next tier. -/
def bindingsChain : List (DelayedBindingType × DelayedBindingType) :=
  [ (DELAYED_BINDING_UNKNOWN, DELAYED_BINDING_SECOND),
    (DELAYED_BINDING_SECOND, DELAYED_BINDING_MINUTE),
    (DELAYED_BINDING_MINUTE, DELAYED_BINDING_TEN_MINUTES),
    (DELAYED_BINDING_TEN_MINUTES, DELAYED_BINDING_HOUR),
    (DELAYED_BINDING_HOUR, DELAYED_BINDING_SIX_HOURS) ]

/-! ## Topology construction (consumer.go 81-197) -/

/-- Calls made on the broker channel. -/
inductive BrokerCall where
  | ExchangeDeclare (name : String) (kind : ExchangeType) (args : Table)
  | QueueDeclare (name : String) (args : Table)
  | QueueBind (queue key exchange : String)
  | Publish (exchange key body : String)
  | Ack (multiple : Bool)
  deriving DecidableEq, Repr

/-- Go `type ConsumerApplicationConfig struct`. -/
structure ConsumerApplicationConfig where
  URI : String
  Bindings : List Binding
  deriving DecidableEq, Repr

/-- Go `type ConsumerApplication struct` without its connection and delivery channel.
`binding` is the configured binding as `OnInit` left it. -/
structure ConsumerApplication where
  id : Int
  binding : Binding
  mailersCount : Int
  deriving DecidableEq, Repr

/-- Everything `OnInit` reads and writes: the package-level variables `delayedBindings`
and `consumerHandlers`, the calls made on the broker so far, the local counter
`appsCount`, and the `Consumer` fields `AppsConfigs` (whose bindings are updated in place
through their pointers) and `appsByURI`. -/
structure World where
  delayedBindings : List (DelayedBindingType × Descriptor)
  consumerHandlers : Int
  calls : List BrokerCall
  appsCount : Int
  AppsConfigs : List ConsumerApplicationConfig
  appsByURI : List (String × List ConsumerApplication)
  deriving DecidableEq, Repr

/-- The state of a fresh process. -/
def World.start : World :=
  { delayedBindings := Postmanq.delayedBindings, consumerHandlers := 0, calls := [],
    appsCount := 0, AppsConfigs := [], appsByURI := [] }

/-- Go `Consumer.declare`, success path (a failed declaration exits the process): the
exchange is declared, then the queue, then the queue is bound. -/
def declare (binding : Descriptor) : List BrokerCall :=
  [ .ExchangeDeclare binding.Exchange binding.Kind binding.ExchangeArgs,
    .QueueDeclare binding.Queue binding.QueueArgs,
    .QueueBind binding.Queue binding.Routing binding.Exchange ]

/-- The writes of lines 114-117 to one shared delayed object. -/
def rewriteDelayed (binding : Binding) (delayedBinding : Descriptor) : Descriptor :=
  { delayedBinding with
    Exchange := Sprintf delayedBinding.Name binding.Exchange
    Queue := Sprintf delayedBinding.Name binding.Queue
    QueueArgs := tableAssign delayedBinding.QueueArgs "x-dead-letter-exchange"
      (.str binding.Exchange)
    Kind := binding.Kind }

/-- The loop of lines 113-120 over the package-level map.  It returns the objects as
rewritten, the broker calls made, and the entries put into `binding.delayedBindings`.
Go leaves the order of a map range unspecified; each iteration touches only the object of
its own key, so the order changes only the order of the calls.  Keys are visited here in
the order of the list. -/
def declareDelayed (binding : Binding) : List (DelayedBindingType × Descriptor) →
    List (DelayedBindingType × Descriptor) × List BrokerCall ×
      List (DelayedBindingType × DelayedBindingType)
  | [] => ([], [], [])
  | (delayedBindingType, delayedBinding) :: rest =>
    let delayedBinding := rewriteDelayed binding delayedBinding
    let r := declareDelayed binding rest
    ((delayedBindingType, delayedBinding) :: r.1,
      declare delayedBinding ++ r.2.1,
      (delayedBindingType, delayedBindingType) :: r.2.2)

/-- Lines 97-107: the defaults applied to a configured binding. -/
def applyDefaults (binding : Binding) : Binding :=
  let binding : Binding :=
    if binding.Kind.length = 0 then { binding with Kind := EXCHANGE_TYPE_FANOUT } else binding
  let binding : Binding :=
    if binding.Name.length > 0 then
      { binding with Exchange := binding.Name, Queue := binding.Name }
    else binding
  if binding.Handlers = 0 then { binding with Handlers := 1 } else binding

/-- The failure binding of lines 122-125. -/
def newFailBinding (binding : Binding) : Descriptor :=
  { Exchange := Sprintf FAIL_BINDING binding.Exchange
    Queue := Sprintf FAIL_BINDING binding.Queue
    Kind := binding.Kind }

/-- One iteration of the loop of lines 96-134.  `appsCount` counts the bindings processed so
far, at most the length of the configuration, so its increment is exact; the addition to
`consumerHandlers` wraps. -/
def initBinding (mailersCount : Int) (w : World) (binding : Binding) :
    World × Binding × ConsumerApplication :=
  let binding := applyDefaults binding
  let calls := w.calls ++ declare binding.toDescriptor
  let r := declareDelayed binding w.delayedBindings
  let failBinding := newFailBinding binding
  let binding : Binding :=
    { binding with delayedBindings := r.2.2, failBinding := some failBinding }
  let appsCount := w.appsCount + 1
  let app : ConsumerApplication :=
    { id := appsCount, binding := binding, mailersCount := mailersCount }
  ({ w with
      delayedBindings := r.1
      calls := calls ++ r.2.1 ++ declare failBinding
      appsCount := appsCount
      consumerHandlers := wrapInt (w.consumerHandlers + binding.Handlers) },
    binding, app)

/-- The loop of lines 96-134 over the bindings of one endpoint. -/
def initBindings (mailersCount : Int) : World → List Binding →
    World × List Binding × List ConsumerApplication
  | w, [] => (w, [], [])
  | w, binding :: rest =>
    let r := initBinding mailersCount w binding
    let s := initBindings mailersCount r.1 rest
    (s.1, r.2.1 :: s.2.1, r.2.2 :: s.2.2)

/-- Map assignment `appsByURI[uri] = apps`. -/
def assignApps : List (String × List ConsumerApplication) → String →
    List ConsumerApplication → List (String × List ConsumerApplication)
  | [], uri, apps => [(uri, apps)]
  | (k, v) :: rest, uri, apps =>
    if k = uri then (uri, apps) :: rest else (k, v) :: assignApps rest uri apps

/-- One iteration of the loop of lines 87-145, on the path where the dial and the channel
succeed (otherwise the process exits). -/
def initApp (mailersCount : Int) (w : World) (appConfig : ConsumerApplicationConfig) :
    World :=
  let r := initBindings mailersCount w appConfig.Bindings
  { r.1 with
    AppsConfigs := r.1.AppsConfigs ++ [{ appConfig with Bindings := r.2.1 }]
    appsByURI := assignApps r.1.appsByURI appConfig.URI r.2.2 }

/-- Go `Consumer.OnInit` after the configuration is parsed: `AppsConfigs` are the parsed
endpoints and `mailersCount` is `event.MailersCount`. -/
def OnInit (mailersCount : Int) (AppsConfigs : List ConsumerApplicationConfig) : World :=
  AppsConfigs.foldl (initApp mailersCount) World.start

/-- All bindings of the configuration, as `OnInit` left them. -/
def World.bindings (w : World) : List Binding :=
  w.AppsConfigs.flatMap (fun c => c.Bindings)

/-- Dereference of `binding.delayedBindings[t]` in the world: the entry must exist, and
its pointer is followed to the shared object. -/
def delayedOf (w : World) (binding : Binding) (t : DelayedBindingType) : Option Descriptor :=
  (binding.delayedBindings.lookup t).bind (fun p => w.delayedBindings.lookup p)

/-! ## The order of the range over the map (consumer.go 113) -/

/-- The order in which a `range` over the package-level map visits its entries.  Go leaves
it unspecified, and it may differ from one loop to the next: `order n g` lists the entries
`g` in the order of the loop that runs when `appsCount` is `n`. -/
abbrev RangeOrder :=
  Int → List (DelayedBindingType × Descriptor) → List (DelayedBindingType × Descriptor)

/-- One iteration of the loop of lines 96-134 when the range of lines 113-120 visits the
map in the order `order` gives.  A Go map has no order of its own, so its entries are
listed in the visiting order and the loop runs over that list. -/
def initBindingIn (order : RangeOrder) (mailersCount : Int) (w : World) (binding : Binding) :
    World × Binding × ConsumerApplication :=
  initBinding mailersCount
    { w with delayedBindings := order w.appsCount w.delayedBindings } binding

/-- The loop of lines 96-134 over the bindings of one endpoint, with visiting orders. -/
def initBindingsIn (order : RangeOrder) (mailersCount : Int) : World → List Binding →
    World × List Binding × List ConsumerApplication
  | w, [] => (w, [], [])
  | w, binding :: rest =>
    let r := initBindingIn order mailersCount w binding
    let s := initBindingsIn order mailersCount r.1 rest
    (s.1, r.2.1 :: s.2.1, r.2.2 :: s.2.2)

/-- One iteration of the loop of lines 87-145, with visiting orders. -/
def initAppIn (order : RangeOrder) (mailersCount : Int) (w : World)
    (appConfig : ConsumerApplicationConfig) : World :=
  let r := initBindingsIn order mailersCount w appConfig.Bindings
  { r.1 with
    AppsConfigs := r.1.AppsConfigs ++ [{ appConfig with Bindings := r.2.1 }]
    appsByURI := assignApps r.1.appsByURI appConfig.URI r.2.2 }

/-- Go `Consumer.OnInit` with the visiting orders of its map ranges given by `order`;
`OnInit` is the run in which every range follows the tier order. -/
def OnInitIn (order : RangeOrder) (mailersCount : Int)
    (AppsConfigs : List ConsumerApplicationConfig) : World :=
  AppsConfigs.foldl (initAppIn order mailersCount) World.start

/-! ## Workers (consumer.go 303-476) -/

/-- Lines 313-316: the prefetch count of a worker, from `this.mailersCount` and the
package-level `consumerHandlers`, both Go `int`.  Integer division truncates, and panics
on a zero divisor: that is `none`.  The quotient of two `int` values is an `int` except
for the least `int` divided by -1, which the test `mailersCount > consumerHandlers`
excludes; the product by 3 wraps. -/
def prefetchCount (mailersCount consumerHandlers : Int) : Option Int :=
  if mailersCount > consumerHandlers then
    if consumerHandlers = 0 then none
    else some (wrapInt (Int.tdiv mailersCount consumerHandlers * 3))
  else some 1

/-- Modelled from the spec: the error of a job, `{code, message}`; its Go type is declared
outside the given sources, and `consume` reads `Code` and `Message`. -/
structure MailError where
  Code : Int
  Message : String
  deriving DecidableEq, Repr

/-- Modelled from the spec: the job, Go `MailMessage`, declared outside the given sources.
The spec lists identifier, destination hostname, current tier, overlimit flag and optional
error; `consume` also prints `Envelope` and `Recipient`.  The completion signal `Done` is
the second component of what `Env.SendMail` returns. -/
structure MailMessage where
  Id : Int
  Envelope : String
  Recipient : String
  HostnameTo : String
  BindingType : DelayedBindingType
  Overlimit : Bool
  Error : Option MailError
  deriving DecidableEq, Repr

/-- The collaborators of a worker.  `Unmarshal` is `json.Unmarshal` into a new message
(`none` when it returns an error).  `SendMail` stands for lines 338-352: `message.Init()`,
`SendMail(message)` and the receive from `message.Done`; it returns the message as the
Sender left it and the value received.  `Marshal` is `json.Marshal` (`none` on error).
`Publish` tells whether `channel.Publish` returned no error. -/
structure Env where
  Unmarshal : String → Option MailMessage
  SendMail : MailMessage → MailMessage × Bool
  Marshal : MailMessage → Option String
  Publish : String → String → String → Bool

/-- Levels of the log lines. -/
inductive LogLevel where
  | debug
  | info
  | warn
  deriving DecidableEq, Repr

/-- What a worker does: a call on its channel, or a log line. -/
inductive Event where
  | call (c : BrokerCall)
  | log (level : LogLevel)
  deriving DecidableEq, Repr

/-- The broker calls of a trace, in order. -/
def brokerCalls (trace : List Event) : List BrokerCall :=
  trace.filterMap (fun e => match e with
    | .call c => some c
    | .log _ => none)

/-- The loop of lines 364-369 over `limitBindings`, started with `bindingType` equal to
`DELAYED_BINDING_UNKNOWN`: the value of `bindingType` after the loop. -/
def findLimitBinding (current : DelayedBindingType) : List DelayedBindingType →
    DelayedBindingType
  | [] => DELAYED_BINDING_UNKNOWN
  | limitBinding :: rest =>
    if limitBinding = current then limitBinding else findLimitBinding current rest

/-- Lines 359-377: the value of `bindingType` at line 378. -/
def chooseBindingType (message : MailMessage) : DelayedBindingType :=
  if message.Overlimit then
    findLimitBinding message.BindingType limitBindings
  else
    match bindingsChain.lookup message.BindingType with
    | some chainBinding => chainBinding
    | none => DELAYED_BINDING_UNKNOWN

/-- Lines 384-406 and, with the same shape, 425-459: serialise the message and publish it
to the exchange of `binding` with the routing key of `binding`. -/
def republish (env : Env) (binding : Descriptor) (message : MailMessage) : List Event :=
  match env.Marshal message with
  | some jsonMessage =>
    .call (.Publish binding.Exchange binding.Routing jsonMessage) ::
      (if env.Publish binding.Exchange binding.Routing jsonMessage then [.log .debug]
       else [.log .debug, .log .warn])
  | none => [.log .warn]

/-- Lines 418-422: the binding a job with an error is published to; `none` is the nil
pointer. -/
def chooseFailBinding (w : World) (this : ConsumerApplication) (error : MailError) :
    Option Descriptor :=
  if error.Code ≥ 500 ∧ error.Code ≤ 600 then this.binding.failBinding
  else if error.Code = 451 then w.delayedBindings.lookup DELAYED_BINDING_THIRTY_MINUTES
  else none

/-- Lines 353-461: what a worker does with a message the Sender did not send. -/
def handleFailure (env : Env) (w : World) (this : ConsumerApplication)
    (message : MailMessage) : List Event :=
  .log .info ::
    match message.Error with
    | none =>
      let bindingType := chooseBindingType message
      (if message.Overlimit then [.log .debug] else [.log .debug, .log .debug]) ++
        .log .debug ::
        match delayedOf w this.binding bindingType with
        | some delayedBinding =>
          republish env delayedBinding { message with BindingType := bindingType }
        | none => [.log .warn]
    | some error =>
      match chooseFailBinding w this error with
      | some failBinding => republish env failBinding message
      | none => []

/-- The body of the loop of lines 333-471: what a worker does with one delivery. -/
def handleDelivery (env : Env) (w : World) (this : ConsumerApplication) (Body : String) :
    List Event :=
  match env.Unmarshal Body with
  | some message =>
    let r := env.SendMail message
    let message := r.1
    let done := r.2
    .log .info ::
      ((if !done then handleFailure env w this message else []) ++ [.call (.Ack true)])
  | none => [.log .warn]

/-! ## The state `OnInit` reaches, in closed form -/

/-- The shared delayed objects after the loop of lines 113-120 ran for `binding`. -/
def rewriteAll (binding : Binding) (g : List (DelayedBindingType × Descriptor)) :
    List (DelayedBindingType × Descriptor) :=
  g.map (fun p => (p.1, rewriteDelayed binding p.2))

/-- The entries of `binding.delayedBindings` after the loop: each tier points to the
shared object of that tier. -/
def tierPointers : List (DelayedBindingType × DelayedBindingType) :=
  [(1, 1), (2, 2), (3, 3), (4, 4), (5, 5), (6, 6), (7, 7)]

/-- The values the package-level map `delayedBindings` takes while `OnInit` runs: the
initial one, or the one rewritten for some binding. -/
def Reachable (g : List (DelayedBindingType × Descriptor)) : Prop :=
  g = delayedBindings ∨ ∃ b : Binding, g = rewriteAll b delayedBindings

/-- The value of `consumerHandlers` after `+=` with each number of a list in turn, from
the value `acc`: every addition wraps. -/
def wrapSum (acc : Int) : List Int → Int
  | [] => acc
  | x :: rest => wrapSum (wrapInt (acc + x)) rest

/-- A configured binding as one iteration of `OnInit` leaves it. -/
def builtBinding (binding : Binding) : Binding :=
  { applyDefaults binding with
    delayedBindings := tierPointers
    failBinding := some (newFailBinding (applyDefaults binding)) }

/-- The broker calls of one iteration of `OnInit`, for a binding with defaults applied. -/
def topologyCalls (binding : Binding) : List BrokerCall :=
  declare binding.toDescriptor ++
    (rewriteAll binding delayedBindings).flatMap (fun p => declare p.2) ++
    declare (newFailBinding binding)

/-! ## The statements of the specification, as definitions -/

/-- The escalation chain as the specification lists it: none, second, minute, ten-minutes,
hour, six-hours; every other tier has no successor. -/
def specEscalationNext (t : DelayedBindingType) : Option DelayedBindingType :=
  if t = DELAYED_BINDING_UNKNOWN then some DELAYED_BINDING_SECOND
  else if t = DELAYED_BINDING_SECOND then some DELAYED_BINDING_MINUTE
  else if t = DELAYED_BINDING_MINUTE then some DELAYED_BINDING_TEN_MINUTES
  else if t = DELAYED_BINDING_TEN_MINUTES then some DELAYED_BINDING_HOUR
  else if t = DELAYED_BINDING_HOUR then some DELAYED_BINDING_SIX_HOURS
  else none

/-- The overlimit ladder as the specification reads it: the successor in second, minute,
hour, day; day and every tier outside the sequence have none. -/
def specOverlimitNext (t : DelayedBindingType) : Option DelayedBindingType :=
  if t = DELAYED_BINDING_SECOND then some DELAYED_BINDING_MINUTE
  else if t = DELAYED_BINDING_MINUTE then some DELAYED_BINDING_HOUR
  else if t = DELAYED_BINDING_HOUR then some DELAYED_BINDING_DAY
  else none

/-- The primary exchange name of a configured binding: its name if one is given, else
its exchange. -/
def specExchangeName (b : Binding) : String :=
  if b.Name = "" then b.Exchange else b.Name

/-- The primary queue name of a configured binding: its name if one is given, else its
queue. -/
def specQueueName (b : Binding) : String :=
  if b.Name = "" then b.Queue else b.Name

/-- The queue arguments the specification gives a delayed queue. -/
def specDelayedArgs (ttl : Int) (E : String) : Table :=
  [("x-message-ttl", .int64 ttl), ("x-dead-letter-exchange", .str E)]

/-- The nine queues the specification lists for a binding with primary exchange `E` and
queue `Q`, each with its arguments; `args` are the configured arguments of the primary
queue. -/
def specQueues (E Q : String) (args : Table) : List (String × Table) :=
  [ (Q, args),
    (Q ++ ".dlx.second", specDelayedArgs 1000 E),
    (Q ++ ".dlx.minute", specDelayedArgs 60000 E),
    (Q ++ ".dlx.ten.minutes", specDelayedArgs 600000 E),
    (Q ++ ".dlx.thirty.minutes", specDelayedArgs 1800000 E),
    (Q ++ ".dlx.hour", specDelayedArgs 3600000 E),
    (Q ++ ".dlx.six.hours", specDelayedArgs 21600000 E),
    (Q ++ ".dlx.day", specDelayedArgs 86400000 E),
    (Q ++ ".fail", []) ]

/-- The exchange each of the nine queues is bound to, as (queue, exchange). -/
def specExchanges (E Q : String) : List (String × String) :=
  [ (Q, E),
    (Q ++ ".dlx.second", E ++ ".dlx.second"),
    (Q ++ ".dlx.minute", E ++ ".dlx.minute"),
    (Q ++ ".dlx.ten.minutes", E ++ ".dlx.ten.minutes"),
    (Q ++ ".dlx.thirty.minutes", E ++ ".dlx.thirty.minutes"),
    (Q ++ ".dlx.hour", E ++ ".dlx.hour"),
    (Q ++ ".dlx.six.hours", E ++ ".dlx.six.hours"),
    (Q ++ ".dlx.day", E ++ ".dlx.day"),
    (Q ++ ".fail", E ++ ".fail") ]

/-- The queues declared by a list of broker calls, with their arguments. -/
def queueDeclarations (calls : List BrokerCall) : List (String × Table) :=
  calls.filterMap (fun c => match c with
    | .QueueDeclare name args => some (name, args)
    | _ => none)

/-- The bindings made by a list of broker calls, as (queue, exchange). -/
def queueExchanges (calls : List BrokerCall) : List (String × String) :=
  calls.filterMap (fun c => match c with
    | .QueueBind queue _ exchange => some (queue, exchange)
    | _ => none)

/-- The statement of the specification for one configured binding and the broker calls
made for it: the calls declare exactly nine queues, which are, in some order, the nine of
the table for the primary names of the binding, and bind each to its exchange. -/
def DeclaresTopology (b : Binding) (segment : List BrokerCall) : Prop :=
  (queueDeclarations segment).length = 9 ∧
  (queueDeclarations segment).Perm
    (specQueues (specExchangeName b) (specQueueName b) b.QueueArgs) ∧
  (queueExchanges segment).Perm (specExchanges (specExchangeName b) (specQueueName b))

/-- The number of acknowledgments among broker calls. -/
def ackCount (calls : List BrokerCall) : Nat :=
  calls.countP (fun c => match c with
    | .Ack _ => true
    | _ => false)

/-- The number of publishes among broker calls. -/
def publishCount (calls : List BrokerCall) : Nat :=
  calls.countP (fun c => match c with
    | .Publish _ _ _ => true
    | _ => false)

/-! ## Redelivery of a republished job -/

/-- Lines 382-383: the message a ladder step serialises, stamped with the chosen tier;
`none` when the binding holds no object for the chosen tier and nothing is published. -/
def ladderStep (w : World) (this : ConsumerApplication) (message : MailMessage) :
    Option MailMessage :=
  match delayedOf w this.binding (chooseBindingType message) with
  | some _ => some { message with BindingType := chooseBindingType message }
  | none => none

/-- The job comes back after each ladder republish carrying the stamped tier, and every
attempt fails again without an error and with the same overlimit flag.  The result is the
number of republishes before a step publishes nothing; it is `none` when all of `fuel`
attempts republish. -/
def republishCount (w : World) (this : ConsumerApplication) : Nat → MailMessage → Option Nat
  | 0, _ => none
  | fuel + 1, message =>
    match ladderStep w this message with
    | none => some 0
    | some next => (republishCount w this fuel next).map (fun n => n + 1)

/-- The number of republishes the escalation chain of the specification allows from a
tier: five from none, down to one from hour, and none from any other tier. -/
def specEscalationSteps (t : DelayedBindingType) : Nat :=
  if t = DELAYED_BINDING_UNKNOWN then 5
  else if t = DELAYED_BINDING_SECOND then 4
  else if t = DELAYED_BINDING_MINUTE then 3
  else if t = DELAYED_BINDING_TEN_MINUTES then 2
  else if t = DELAYED_BINDING_HOUR then 1
  else 0

/-! ## Sample inputs -/

/-- A binding configured by name, with a routing key. -/
def sampleBinding : Binding :=
  { Name := "mail", Routing := "k" }

/-- One endpoint with one binding. -/
def sampleConfigs : List ConsumerApplicationConfig :=
  [{ URI := "amqp://localhost", Bindings := [sampleBinding] }]

/-- The topology built for `sampleConfigs` with 30 senders. -/
def sampleWorld : World :=
  OnInit 30 sampleConfigs

/-- The application of `sampleBinding`. -/
def sampleApp : ConsumerApplication :=
  { id := 1, binding := builtBinding sampleBinding, mailersCount := 30 }

/-- A job at a tier, with a verdict. -/
def sampleJob (tier : DelayedBindingType) (overlimit : Bool) (error : Option MailError) :
    MailMessage :=
  { Id := 1, Envelope := "sender@example.org", Recipient := "rcpt@example.com",
    HostnameTo := "example.com", BindingType := tier, Overlimit := overlimit, Error := error }

/-- Collaborators for the samples: the empty body is malformed, every other body decodes
to the job as it was queued; the Sender leaves the message as `verdict` and signals
`done`; the payload shows the tier field; publishing succeeds. -/
def sampleEnv (verdict : MailMessage) (done : Bool) : Env :=
  { Unmarshal := fun body =>
      if body = "" then none else some { verdict with Overlimit := false, Error := none }
    SendMail := fun _ => (verdict, done)
    Marshal := fun m => some ("tier=" ++ toString m.BindingType)
    Publish := fun _ _ _ => true }

/-- One endpoint with two bindings. -/
def twoBindings : List ConsumerApplicationConfig :=
  [{ URI := "amqp://localhost", Bindings := [{ Name := "a" }, { Name := "b" }] }]

/-- Two endpoints, three bindings: one with no worker count, one with 3, one with 2. -/
def workerConfigs : List ConsumerApplicationConfig :=
  [ { URI := "amqp://one", Bindings := [{ Name := "a" }, { Name := "b", Handlers := 3 }] },
    { URI := "amqp://two", Bindings := [{ Name := "c", Handlers := 2 }] } ]

/-- One endpoint whose two bindings have the worker counts -1 and 1. -/
def negativeConfigs : List ConsumerApplicationConfig :=
  [{ URI := "amqp://localhost",
     Bindings := [{ Name := "a", Handlers := -1 }, { Name := "b", Handlers := 1 }] }]

/-- One endpoint whose two bindings have the worker counts `maxInt` and 1. -/
def overflowConfigs : List ConsumerApplicationConfig :=
  [{ URI := "amqp://localhost",
     Bindings := [{ Name := "a", Handlers := 9223372036854775807 },
       { Name := "b", Handlers := 1 }] }]

/-- One endpoint whose three bindings have the worker counts `maxInt`, `maxInt` and 2. -/
def zeroSumConfigs : List ConsumerApplicationConfig :=
  [{ URI := "amqp://localhost",
     Bindings := [{ Name := "a", Handlers := 9223372036854775807 },
       { Name := "b", Handlers := 9223372036854775807 }, { Name := "c", Handlers := 2 }] }]

/-- A visiting order: every range runs from the last entry to the first. -/
def reverseOrder : RangeOrder :=
  fun _ g => g.reverse

/-! ## Lemmas on topology construction -/

theorem tableAssign_tableAssign (t : Table) (k : String) (v v2 : TableValue) :
    tableAssign (tableAssign t k v) k v2 = tableAssign t k v2 := by
  induction t with
  | nil => simp [tableAssign]
  | cons e rest ih =>
    obtain ⟨k0, v0⟩ := e
    by_cases h : k0 = k
    · simp [tableAssign, h]
    · simp [tableAssign, h, ih]

theorem rewriteDelayed_rewriteDelayed (b b2 : Binding) (d : Descriptor) :
    rewriteDelayed b (rewriteDelayed b2 d) = rewriteDelayed b d := by
  simp [rewriteDelayed, tableAssign_tableAssign]

theorem rewriteAll_rewriteAll (b b2 : Binding) (g : List (DelayedBindingType × Descriptor)) :
    rewriteAll b (rewriteAll b2 g) = rewriteAll b g := by
  simp [rewriteAll, List.map_map, Function.comp_def, rewriteDelayed_rewriteDelayed]

theorem declareDelayed_eq (b : Binding) (g : List (DelayedBindingType × Descriptor)) :
    declareDelayed b g =
      (rewriteAll b g, (rewriteAll b g).flatMap (fun p => declare p.2),
        g.map (fun p => (p.1, p.1))) := by
  induction g with
  | nil => rfl
  | cons e rest ih =>
    obtain ⟨t, d⟩ := e
    simp [declareDelayed, ih, rewriteAll]

theorem rewriteAll_of_reachable (b : Binding) {g : List (DelayedBindingType × Descriptor)}
    (hg : Reachable g) : rewriteAll b g = rewriteAll b delayedBindings := by
  rcases hg with rfl | ⟨b2, rfl⟩
  · rfl
  · exact rewriteAll_rewriteAll b b2 _

theorem pointers_of_reachable {g : List (DelayedBindingType × Descriptor)}
    (hg : Reachable g) : g.map (fun p => (p.1, p.1)) = tierPointers := by
  rcases hg with rfl | ⟨b2, rfl⟩
  · rfl
  · simp [rewriteAll, List.map_map, Function.comp_def]
    rfl

theorem wrapSum_append (acc : Int) (l l2 : List Int) :
    wrapSum acc (l ++ l2) = wrapSum (wrapSum acc l) l2 := by
  induction l generalizing acc with
  | nil => rfl
  | cons x rest ih => exact ih (wrapInt (acc + x))

theorem initBinding_eq (mailersCount : Int) (w : World) (b : Binding)
    (hw : Reachable w.delayedBindings) :
    initBinding mailersCount w b =
      ({ w with
          delayedBindings := rewriteAll (applyDefaults b) delayedBindings
          calls := w.calls ++ topologyCalls (applyDefaults b)
          appsCount := w.appsCount + 1
          consumerHandlers := wrapInt (w.consumerHandlers + (applyDefaults b).Handlers) },
        builtBinding b,
        { id := w.appsCount + 1, binding := builtBinding b, mailersCount := mailersCount }) := by
  simp only [initBinding, declareDelayed_eq, rewriteAll_of_reachable _ hw,
    pointers_of_reachable hw, builtBinding, topologyCalls, List.append_assoc]

/-- What the loop over the bindings of one endpoint establishes, from a reachable state. -/
theorem initBindings_spec (mailersCount : Int) (bs : List Binding) :
    ∀ w : World, Reachable w.delayedBindings →
      Reachable (initBindings mailersCount w bs).1.delayedBindings ∧
      (initBindings mailersCount w bs).1.calls =
        w.calls ++ bs.flatMap (fun b => topologyCalls (applyDefaults b)) ∧
      (initBindings mailersCount w bs).2.1 = bs.map builtBinding ∧
      (initBindings mailersCount w bs).1.AppsConfigs = w.AppsConfigs ∧
      (initBindings mailersCount w bs).1.consumerHandlers =
        wrapSum w.consumerHandlers (bs.map (fun b => (applyDefaults b).Handlers)) := by
  induction bs with
  | nil => intro w hw; simp [initBindings, hw, wrapSum]
  | cons b rest ih =>
    intro w hw
    have hr : Reachable (initBinding mailersCount w b).1.delayedBindings := by
      rw [initBinding_eq mailersCount w b hw]
      exact Or.inr ⟨applyDefaults b, rfl⟩
    obtain ⟨h1, h2, h3, h4, h5⟩ := ih (initBinding mailersCount w b).1 hr
    refine ⟨h1, ?_, ?_, ?_, ?_⟩
    · simp only [initBindings, h2]
      rw [initBinding_eq mailersCount w b hw]
      simp [List.append_assoc]
    · simp only [initBindings, h3]
      rw [initBinding_eq mailersCount w b hw]
      simp
    · simp only [initBindings, h4]
      rw [initBinding_eq mailersCount w b hw]
    · simp only [initBindings, h5]
      rw [initBinding_eq mailersCount w b hw]
      simp [wrapSum]

/-- What `OnInit` establishes, from any reachable state. -/
theorem foldl_initApp_spec (mailersCount : Int) (cfgs : List ConsumerApplicationConfig) :
    ∀ w : World, Reachable w.delayedBindings →
      Reachable (cfgs.foldl (initApp mailersCount) w).delayedBindings ∧
      (cfgs.foldl (initApp mailersCount) w).calls =
        w.calls ++ (cfgs.flatMap (fun c => c.Bindings)).flatMap
          (fun b => topologyCalls (applyDefaults b)) ∧
      (cfgs.foldl (initApp mailersCount) w).bindings =
        w.bindings ++ (cfgs.flatMap (fun c => c.Bindings)).map builtBinding ∧
      (cfgs.foldl (initApp mailersCount) w).consumerHandlers =
        wrapSum w.consumerHandlers
          ((cfgs.flatMap (fun c => c.Bindings)).map (fun b => (applyDefaults b).Handlers)) := by
  induction cfgs with
  | nil => intro w hw; simp [hw, wrapSum]
  | cons c rest ih =>
    intro w hw
    obtain ⟨h1, h2, h3, h4, h5⟩ := initBindings_spec mailersCount c.Bindings w hw
    have hr : Reachable (initApp mailersCount w c).delayedBindings := by
      simpa [initApp] using h1
    obtain ⟨k1, k2, k3, k4⟩ := ih (initApp mailersCount w c) hr
    refine ⟨k1, ?_, ?_, ?_⟩
    · rw [List.foldl_cons, k2]
      simp [initApp, h2, List.append_assoc]
    · rw [List.foldl_cons, k3]
      simp [initApp, World.bindings, h3, h4, List.append_assoc]
    · rw [List.foldl_cons, k4]
      simp [initApp, h5, wrapSum_append]

theorem reachable_start : Reachable World.start.delayedBindings :=
  Or.inl rfl

theorem OnInit_reachable (mailersCount : Int) (cfgs : List ConsumerApplicationConfig) :
    Reachable (OnInit mailersCount cfgs).delayedBindings :=
  (foldl_initApp_spec mailersCount cfgs World.start reachable_start).1

theorem OnInit_calls (mailersCount : Int) (cfgs : List ConsumerApplicationConfig) :
    (OnInit mailersCount cfgs).calls =
      (cfgs.flatMap (fun c => c.Bindings)).flatMap (fun b => topologyCalls (applyDefaults b)) := by
  have h := (foldl_initApp_spec mailersCount cfgs World.start reachable_start).2.1
  simpa [OnInit, World.start] using h

theorem OnInit_bindings (mailersCount : Int) (cfgs : List ConsumerApplicationConfig) :
    (OnInit mailersCount cfgs).bindings = (cfgs.flatMap (fun c => c.Bindings)).map builtBinding := by
  have h := (foldl_initApp_spec mailersCount cfgs World.start reachable_start).2.2.1
  simpa [OnInit, World.start, World.bindings] using h

theorem OnInit_consumerHandlers (mailersCount : Int) (cfgs : List ConsumerApplicationConfig) :
    (OnInit mailersCount cfgs).consumerHandlers =
      wrapSum 0
        ((cfgs.flatMap (fun c => c.Bindings)).map (fun b => (applyDefaults b).Handlers)) := by
  have h := (foldl_initApp_spec mailersCount cfgs World.start reachable_start).2.2.2
  simpa [OnInit, World.start] using h

/-! ## Reading the built topology -/

theorem lookup_cons_ite {α β : Type} [DecidableEq α] (k a : α) (b : β) (l : List (α × β)) :
    List.lookup k ((a, b) :: l) = if k = a then some b else List.lookup k l := by
  by_cases h : k = a
  · simp [List.lookup, h]
  · have hk : (k == a) = false := by simpa using h
    simp [List.lookup, hk, h]

theorem lookup_map_snd {α β γ : Type} [DecidableEq α] (f : β → γ) (k : α)
    (l : List (α × β)) :
    List.lookup k (l.map (fun p => (p.1, f p.2))) = (List.lookup k l).map f := by
  induction l with
  | nil => rfl
  | cons e rest ih =>
    obtain ⟨a, b⟩ := e
    simp only [List.map_cons, lookup_cons_ite, ih]
    split <;> rfl

theorem lookup_pointers {α β : Type} [DecidableEq α] (k : α) (l : List (α × β)) :
    List.lookup k (l.map (fun p => (p.1, p.1))) = (List.lookup k l).map (fun _ => k) := by
  induction l with
  | nil => rfl
  | cons e rest ih =>
    obtain ⟨a, b⟩ := e
    simp only [List.map_cons, lookup_cons_ite, ih]
    split
    · next h => simp [h]
    · rfl

/-- A built binding reads, for every tier, the shared object of that tier. -/
theorem delayedOf_built (w : World) (b : Binding) (hw : Reachable w.delayedBindings)
    (t : DelayedBindingType) :
    delayedOf w (builtBinding b) t = w.delayedBindings.lookup t := by
  have hp : (builtBinding b).delayedBindings = w.delayedBindings.map (fun p => (p.1, p.1)) := by
    rw [pointers_of_reachable hw]; rfl
  simp only [delayedOf, hp, lookup_pointers]
  cases h : List.lookup t w.delayedBindings <;> simp [h]

theorem lookup_start_some (t : Int) (h1 : 1 ≤ t) (h7 : t ≤ 7) :
    ∃ d, delayedBindings.lookup t = some d ∧ d.Routing = "" := by
  interval_cases t <;> exact ⟨_, rfl, rfl⟩

theorem lookup_start_none (t : Int) (h : t ≤ 0 ∨ 8 ≤ t) :
    delayedBindings.lookup t = none := by
  have e1 : t ≠ 1 := by omega
  have e2 : t ≠ 2 := by omega
  have e3 : t ≠ 3 := by omega
  have e4 : t ≠ 4 := by omega
  have e5 : t ≠ 5 := by omega
  have e6 : t ≠ 6 := by omega
  have e7 : t ≠ 7 := by omega
  simp [delayedBindings, lookup_cons_ite, e1, e2, e3, e4, e5, e6, e7]

/-- For each of the seven tiers the shared map holds an object, whose routing key is
empty: no line of the program writes the field `Routing` of a delayed binding. -/
theorem lookup_reachable_some {g : List (DelayedBindingType × Descriptor)} (hg : Reachable g)
    (t : Int) (h1 : 1 ≤ t) (h7 : t ≤ 7) :
    ∃ d, g.lookup t = some d ∧ d.Routing = "" := by
  obtain ⟨d, hd, hr⟩ := lookup_start_some t h1 h7
  rcases hg with rfl | ⟨b, rfl⟩
  · exact ⟨d, hd, hr⟩
  · refine ⟨rewriteDelayed b d, ?_, ?_⟩
    · simp [rewriteAll, lookup_map_snd, hd]
    · simpa [rewriteDelayed] using hr

theorem lookup_reachable_none {g : List (DelayedBindingType × Descriptor)} (hg : Reachable g)
    (t : Int) (h : t ≤ 0 ∨ 8 ≤ t) : g.lookup t = none := by
  rcases hg with rfl | ⟨b, rfl⟩
  · exact lookup_start_none t h
  · simp [rewriteAll, lookup_map_snd, lookup_start_none t h]

/-- A binding of the built configuration is the built form of a configured binding. -/
theorem built_of_mem {mailersCount : Int} {cfgs : List ConsumerApplicationConfig}
    {b : Binding} (h : b ∈ (OnInit mailersCount cfgs).bindings) :
    ∃ b0, b0 ∈ cfgs.flatMap (fun c => c.Bindings) ∧ b = builtBinding b0 := by
  rw [OnInit_bindings] at h
  obtain ⟨b0, h0, rfl⟩ := List.mem_map.mp h
  exact ⟨b0, h0, rfl⟩

/-! ## Processing one delivery -/

theorem brokerCalls_nil : brokerCalls [] = [] := rfl

theorem brokerCalls_log (level : LogLevel) (rest : List Event) :
    brokerCalls (.log level :: rest) = brokerCalls rest := rfl

theorem brokerCalls_call (c : BrokerCall) (rest : List Event) :
    brokerCalls (.call c :: rest) = c :: brokerCalls rest := rfl

theorem brokerCalls_append (a b : List Event) :
    brokerCalls (a ++ b) = brokerCalls a ++ brokerCalls b := by
  simp [brokerCalls]

theorem brokerCalls_republish (env : Env) (d : Descriptor) (m : MailMessage) :
    brokerCalls (republish env d m) =
      match env.Marshal m with
      | some body => [.Publish d.Exchange d.Routing body]
      | none => [] := by
  unfold republish
  cases env.Marshal m with
  | none => rfl
  | some body =>
    by_cases hp : env.Publish d.Exchange d.Routing body = true <;>
      simp [brokerCalls_call, brokerCalls_log, brokerCalls_nil, hp]

/-- A delivery whose message the Sender did not send: the calls of the failure handling,
then the acknowledgment. -/
theorem brokerCalls_failed (env : Env) (w : World) (this : ConsumerApplication)
    (Body : String) (m0 message : MailMessage) (hbody : env.Unmarshal Body = some m0)
    (hsend : env.SendMail m0 = (message, false)) :
    brokerCalls (handleDelivery env w this Body) =
      brokerCalls (handleFailure env w this message) ++ [.Ack true] := by
  simp [handleDelivery, hbody, hsend, brokerCalls_call, brokerCalls_log, brokerCalls_nil,
    brokerCalls_append]

/-- Failure without an error: the job goes to the object the binding holds for the
chosen tier, stamped with that tier, if the binding holds one. -/
theorem brokerCalls_transient (env : Env) (w : World) (this : ConsumerApplication)
    (message : MailMessage) (herr : message.Error = none) :
    brokerCalls (handleFailure env w this message) =
      match delayedOf w this.binding (chooseBindingType message) with
      | some d =>
        (match env.Marshal { message with BindingType := chooseBindingType message } with
          | some body => [.Publish d.Exchange d.Routing body]
          | none => [])
      | none => [] := by
  have hlogs : brokerCalls
      (if message.Overlimit then [.log .debug] else [.log .debug, .log .debug]) = [] := by
    cases message.Overlimit <;> rfl
  simp only [handleFailure, herr, brokerCalls_log, brokerCalls_append, hlogs,
    List.nil_append]
  cases delayedOf w this.binding (chooseBindingType message) with
  | none => rfl
  | some d => simp only [brokerCalls_republish]

/-- Failure with an error: the job goes, unchanged, to the binding chosen by the code. -/
theorem brokerCalls_rejected (env : Env) (w : World) (this : ConsumerApplication)
    (message : MailMessage) (error : MailError) (herr : message.Error = some error) :
    brokerCalls (handleFailure env w this message) =
      match chooseFailBinding w this error with
      | some d =>
        (match env.Marshal message with
          | some body => [.Publish d.Exchange d.Routing body]
          | none => [])
      | none => [] := by
  simp only [handleFailure, herr, brokerCalls_log]
  cases chooseFailBinding w this error with
  | none => rfl
  | some d => simp only [brokerCalls_republish]

/-- The ladder step when the chosen tier is one of the seven delayed tiers. -/
theorem ladder_publishes (env : Env) (mailersCount : Int)
    (cfgs : List ConsumerApplicationConfig) (this : ConsumerApplication) (Body : String)
    (m0 message : MailMessage) (target : Int)
    (hthis : this.binding ∈ (OnInit mailersCount cfgs).bindings)
    (hbody : env.Unmarshal Body = some m0) (hsend : env.SendMail m0 = (message, false))
    (herr : message.Error = none) (ht : chooseBindingType message = target)
    (h1 : 1 ≤ target) (h7 : target ≤ 7) :
    ∃ d, delayedOf (OnInit mailersCount cfgs) this.binding target = some d ∧
      d.Routing = "" ∧
      ∀ body, env.Marshal { message with BindingType := target } = some body →
        brokerCalls (handleDelivery env (OnInit mailersCount cfgs) this Body) =
          [.Publish d.Exchange d.Routing body, .Ack true] := by
  obtain ⟨b0, _, hb⟩ := built_of_mem hthis
  have hw := OnInit_reachable mailersCount cfgs
  obtain ⟨d, hd, hr⟩ := lookup_reachable_some hw target h1 h7
  have hdel : delayedOf (OnInit mailersCount cfgs) this.binding target = some d := by
    rw [hb, delayedOf_built _ _ hw, hd]
  refine ⟨d, hdel, hr, ?_⟩
  intro body hm
  rw [brokerCalls_failed env _ this Body m0 message hbody hsend,
    brokerCalls_transient env _ this message herr, ht, hdel]
  simp [hm]

/-- The ladder step when no tier is chosen. -/
theorem ladder_drops (env : Env) (mailersCount : Int)
    (cfgs : List ConsumerApplicationConfig) (this : ConsumerApplication) (Body : String)
    (m0 message : MailMessage)
    (hthis : this.binding ∈ (OnInit mailersCount cfgs).bindings)
    (hbody : env.Unmarshal Body = some m0) (hsend : env.SendMail m0 = (message, false))
    (herr : message.Error = none)
    (ht : chooseBindingType message = DELAYED_BINDING_UNKNOWN) :
    brokerCalls (handleDelivery env (OnInit mailersCount cfgs) this Body) = [.Ack true] := by
  obtain ⟨b0, _, hb⟩ := built_of_mem hthis
  have hw := OnInit_reachable mailersCount cfgs
  have hdel : delayedOf (OnInit mailersCount cfgs) this.binding 0 = none := by
    rw [hb, delayedOf_built _ _ hw]
    exact lookup_reachable_none hw 0 (Or.inl (le_refl 0))
  rw [brokerCalls_failed env _ this Body m0 message hbody hsend,
    brokerCalls_transient env _ this message herr, ht, hdel]
  rfl

theorem chooseBindingType_escalation (message : MailMessage)
    (hover : message.Overlimit = false) :
    chooseBindingType message = (specEscalationNext message.BindingType).getD 0 := by
  simp only [chooseBindingType, hover, bindingsChain, lookup_cons_ite, List.lookup_nil,
    specEscalationNext]
  repeat' split
  all_goals first | rfl | simp_all

/-- The sample application is the one `OnInit` creates for the sample configuration. -/
theorem sampleApp_created :
    sampleWorld.appsByURI = [("amqp://localhost", [sampleApp])] := by
  decide

theorem sampleApp_mem : sampleApp.binding ∈ (OnInit 30 sampleConfigs).bindings := by
  rw [OnInit_bindings]
  exact List.mem_map_of_mem _ (by simp [sampleConfigs])

theorem limitBindings_range (t : Int) (h : t ∈ limitBindings) : 1 ≤ t ∧ t ≤ 7 := by
  simp only [limitBindings, List.mem_cons, List.mem_singleton, List.not_mem_nil,
    or_false, DelayedBindingType, DELAYED_BINDING_UNKNOWN, DELAYED_BINDING_SECOND,
    DELAYED_BINDING_MINUTE, DELAYED_BINDING_HOUR, DELAYED_BINDING_DAY] at h
  omega

theorem findLimitBinding_limitBindings (t : Int) :
    findLimitBinding t limitBindings = if t ∈ limitBindings then t else 0 := by
  simp only [limitBindings, findLimitBinding, List.mem_cons, List.mem_singleton,
    List.not_mem_nil, or_false, DelayedBindingType, DELAYED_BINDING_UNKNOWN, DELAYED_BINDING_SECOND,
    DELAYED_BINDING_MINUTE, DELAYED_BINDING_HOUR, DELAYED_BINDING_DAY]
  repeat' split
  all_goals first | rfl | omega

theorem chooseBindingType_overlimit (message : MailMessage)
    (hover : message.Overlimit = true) :
    chooseBindingType message =
      if message.BindingType ∈ limitBindings then message.BindingType
      else DELAYED_BINDING_UNKNOWN := by
  simp only [chooseBindingType, hover, if_true]
  exact findLimitBinding_limitBindings message.BindingType

/-! ## The claims -/

/-- C1, as the specification states it, fails: with overlimit a job at tier second is
chosen tier second, not its successor minute, and is published to the second exchange;
a job at tier day is published again to the day exchange. -/
theorem overlimit_keeps_tier :
    chooseBindingType (sampleJob DELAYED_BINDING_SECOND true none) = DELAYED_BINDING_SECOND ∧
    specOverlimitNext DELAYED_BINDING_SECOND = some DELAYED_BINDING_MINUTE ∧
    brokerCalls (handleDelivery (sampleEnv (sampleJob DELAYED_BINDING_SECOND true none) false)
      sampleWorld sampleApp "job") = [.Publish "mail.dlx.second" "" "tier=1", .Ack true] ∧
    specOverlimitNext DELAYED_BINDING_DAY = none ∧
    brokerCalls (handleDelivery (sampleEnv (sampleJob DELAYED_BINDING_DAY true none) false)
      sampleWorld sampleApp "job") = [.Publish "mail.dlx.day" "" "tier=7", .Ack true] := by
  decide

/-- C1 (amended). Overlimit routing: for a job the Sender failed without an error and with
overlimit, on a built topology, the chosen tier is the current tier itself when that is
one of second, minute, hour, day, and the job is published once, unchanged, to the object
the binding holds for that tier, then acknowledged; for every other current tier nothing
is chosen and the delivery is only acknowledged. -/
theorem overlimit_routing (env : Env) (mailersCount : Int)
    (cfgs : List ConsumerApplicationConfig) (this : ConsumerApplication) (Body : String)
    (m0 message : MailMessage)
    (hthis : this.binding ∈ (OnInit mailersCount cfgs).bindings)
    (hbody : env.Unmarshal Body = some m0) (hsend : env.SendMail m0 = (message, false))
    (herr : message.Error = none) (hover : message.Overlimit = true) :
    if message.BindingType ∈ limitBindings then
      chooseBindingType message = message.BindingType ∧
      ∃ d, delayedOf (OnInit mailersCount cfgs) this.binding message.BindingType = some d ∧
        ∀ body, env.Marshal message = some body →
          brokerCalls (handleDelivery env (OnInit mailersCount cfgs) this Body) =
            [.Publish d.Exchange d.Routing body, .Ack true]
    else
      chooseBindingType message = DELAYED_BINDING_UNKNOWN ∧
      brokerCalls (handleDelivery env (OnInit mailersCount cfgs) this Body) = [.Ack true] := by
  have hc := chooseBindingType_overlimit message hover
  by_cases hm : message.BindingType ∈ limitBindings
  · rw [if_pos hm] at hc ⊢
    have hb : 1 ≤ message.BindingType ∧ message.BindingType ≤ 7 :=
      limitBindings_range message.BindingType hm
    obtain ⟨d, hd, _, hp⟩ := ladder_publishes env mailersCount cfgs this Body m0 message
      message.BindingType hthis hbody hsend herr hc hb.1 hb.2
    exact ⟨hc, d, hd, hp⟩
  · rw [if_neg hm] at hc ⊢
    exact ⟨hc, ladder_drops env mailersCount cfgs this Body m0 message hthis hbody hsend herr hc⟩

/-- C1 (amended) at a sample: a job at tier hour with overlimit is published to the hour
exchange. -/
theorem overlimit_routing_witness :
    sampleApp.binding ∈ (OnInit 30 sampleConfigs).bindings ∧
    chooseBindingType (sampleJob 5 true none) = 5 ∧
    ∃ d, delayedOf (OnInit 30 sampleConfigs) sampleApp.binding 5 = some d ∧
      ∀ body, (sampleEnv (sampleJob 5 true none) false).Marshal (sampleJob 5 true none) =
          some body →
        brokerCalls (handleDelivery (sampleEnv (sampleJob 5 true none) false)
          (OnInit 30 sampleConfigs) sampleApp "job") =
          [.Publish d.Exchange d.Routing body, .Ack true] :=
  ⟨sampleApp_mem,
    overlimit_routing (sampleEnv (sampleJob 5 true none) false) 30 sampleConfigs
      sampleApp "job" (sampleJob 5 false none) (sampleJob 5 true none) sampleApp_mem rfl rfl
      rfl rfl⟩

/-- C2. Escalation ladder routing: for a job the Sender failed without an error and
without overlimit, on a built topology, the chosen tier is the successor of the current
tier in the chain none, second, minute, ten-minutes, hour, six-hours, and the job is
published once to the object the binding holds for that tier, then acknowledged; for
every other current tier (six-hours, thirty-minutes, day among them) nothing is chosen and
the delivery is only acknowledged. -/
theorem escalation_ladder_routing (env : Env) (mailersCount : Int)
    (cfgs : List ConsumerApplicationConfig) (this : ConsumerApplication) (Body : String)
    (m0 message : MailMessage)
    (hthis : this.binding ∈ (OnInit mailersCount cfgs).bindings)
    (hbody : env.Unmarshal Body = some m0) (hsend : env.SendMail m0 = (message, false))
    (herr : message.Error = none) (hover : message.Overlimit = false) :
    match specEscalationNext message.BindingType with
    | some target =>
      chooseBindingType message = target ∧
      ∃ d, delayedOf (OnInit mailersCount cfgs) this.binding target = some d ∧
        ∀ body, env.Marshal { message with BindingType := target } = some body →
          brokerCalls (handleDelivery env (OnInit mailersCount cfgs) this Body) =
            [.Publish d.Exchange d.Routing body, .Ack true]
    | none =>
      chooseBindingType message = DELAYED_BINDING_UNKNOWN ∧
      brokerCalls (handleDelivery env (OnInit mailersCount cfgs) this Body) = [.Ack true] := by
  have hc := chooseBindingType_escalation message hover
  cases hs : specEscalationNext message.BindingType with
  | none =>
    rw [hs] at hc
    exact ⟨hc, ladder_drops env mailersCount cfgs this Body m0 message hthis hbody hsend herr hc⟩
  | some target =>
    rw [hs] at hc
    have hb : 1 ≤ target ∧ target ≤ 7 := by
      simp only [specEscalationNext] at hs
      repeat' split at hs
      all_goals first | (cases hs; decide) | cases hs
    obtain ⟨d, hd, _, hp⟩ := ladder_publishes env mailersCount cfgs this Body m0 message
      target hthis hbody hsend herr hc hb.1 hb.2
    exact ⟨hc, d, hd, hp⟩

/-- C2 at a sample: a job at tier second, failed without error and without overlimit, is
published to the minute exchange with tier minute. -/
theorem escalation_ladder_routing_witness :
    sampleApp.binding ∈ (OnInit 30 sampleConfigs).bindings ∧
    chooseBindingType (sampleJob 1 false none) = 2 ∧
    ∃ d, delayedOf (OnInit 30 sampleConfigs) sampleApp.binding 2 = some d ∧
      ∀ body, (sampleEnv (sampleJob 1 false none) false).Marshal
          { sampleJob 1 false none with BindingType := 2 } = some body →
        brokerCalls (handleDelivery (sampleEnv (sampleJob 1 false none) false)
          (OnInit 30 sampleConfigs) sampleApp "job") =
          [.Publish d.Exchange d.Routing body, .Ack true] :=
  ⟨sampleApp_mem,
    escalation_ladder_routing (sampleEnv (sampleJob 1 false none) false) 30 sampleConfigs
      sampleApp "job" (sampleJob 1 false none) (sampleJob 1 false none) sampleApp_mem rfl rfl
      rfl rfl⟩

/-- C3, at the failing input: an error of code 600 is published to the failure exchange
of the binding, like the codes from 500 to 599; code 601 is not published. -/
theorem error_code_600_published_to_failure_exchange :
    brokerCalls (handleDelivery
      (sampleEnv (sampleJob DELAYED_BINDING_SECOND false (some ⟨600, "reply"⟩)) false)
      sampleWorld sampleApp "job") = [.Publish "mail.fail" "" "tier=1", .Ack true] ∧
    brokerCalls (handleDelivery
      (sampleEnv (sampleJob DELAYED_BINDING_SECOND false (some ⟨599, "reply"⟩)) false)
      sampleWorld sampleApp "job") = [.Publish "mail.fail" "" "tier=1", .Ack true] ∧
    brokerCalls (handleDelivery
      (sampleEnv (sampleJob DELAYED_BINDING_SECOND false (some ⟨601, "reply"⟩)) false)
      sampleWorld sampleApp "job") = [.Ack true] := by
  decide

/-- C4, at the failing input: a delivery whose body does not decode is neither
acknowledged nor published. -/
theorem malformed_delivery_not_acknowledged :
    (sampleEnv (sampleJob DELAYED_BINDING_UNKNOWN false none) true).Unmarshal "" = none ∧
    brokerCalls (handleDelivery (sampleEnv (sampleJob DELAYED_BINDING_UNKNOWN false none) true)
      sampleWorld sampleApp "") = [] ∧
    ackCount (brokerCalls (handleDelivery
      (sampleEnv (sampleJob DELAYED_BINDING_UNKNOWN false none) true)
      sampleWorld sampleApp "")) = 0 := by
  decide

/-- A delivery whose body decodes is acknowledged exactly once and published at most
once, whatever the Sender reports and whether or not serialising and publishing succeed. -/
theorem decoded_delivery_acknowledged_once (env : Env) (w : World)
    (this : ConsumerApplication) (Body : String) (m0 : MailMessage)
    (hbody : env.Unmarshal Body = some m0) :
    ackCount (brokerCalls (handleDelivery env w this Body)) = 1 ∧
    publishCount (brokerCalls (handleDelivery env w this Body)) ≤ 1 := by
  cases hs : env.SendMail m0 with
  | mk message done =>
    cases done with
    | true =>
      have : brokerCalls (handleDelivery env w this Body) = [.Ack true] := by
        simp [handleDelivery, hbody, hs, brokerCalls_call, brokerCalls_log, brokerCalls_nil]
      rw [this]; decide
    | false =>
      rw [brokerCalls_failed env w this Body m0 message hbody hs]
      cases he : message.Error with
      | none =>
        rw [brokerCalls_transient env w this message he]
        cases delayedOf w this.binding (chooseBindingType message) with
        | none => simp [ackCount, publishCount]
        | some d =>
          cases env.Marshal { message with BindingType := chooseBindingType message } with
          | none => simp [ackCount, publishCount]
          | some body => simp [ackCount, publishCount]
      | some error =>
        rw [brokerCalls_rejected env w this message error he]
        cases chooseFailBinding w this error with
        | none => simp [ackCount, publishCount]
        | some d =>
          cases env.Marshal message with
          | none => simp [ackCount, publishCount]
          | some body => simp [ackCount, publishCount]

/-- A malformed delivery makes no broker call at all. -/
theorem malformed_delivery_silent (env : Env) (w : World) (this : ConsumerApplication)
    (Body : String) (hbody : env.Unmarshal Body = none) :
    brokerCalls (handleDelivery env w this Body) = [] := by
  simp [handleDelivery, hbody, brokerCalls_log, brokerCalls_nil]

/-- C5, as the specification states it, fails: a job at tier second rejected with code
451 is published to the thirty-minutes exchange with its tier field still second; the
payload of the job stamped thirty-minutes would differ. -/
theorem greylisted_job_keeps_tier :
    brokerCalls (handleDelivery
      (sampleEnv (sampleJob DELAYED_BINDING_SECOND false (some ⟨451, "greylisted"⟩)) false)
      sampleWorld sampleApp "job") =
      [.Publish "mail.dlx.thirty.minutes" "" "tier=1", .Ack true] ∧
    (sampleEnv (sampleJob DELAYED_BINDING_SECOND false (some ⟨451, "greylisted"⟩)) false).Marshal
      (sampleJob DELAYED_BINDING_SECOND false (some ⟨451, "greylisted"⟩)) = some "tier=1" ∧
    (sampleEnv (sampleJob DELAYED_BINDING_SECOND false (some ⟨451, "greylisted"⟩)) false).Marshal
      (sampleJob DELAYED_BINDING_THIRTY_MINUTES false (some ⟨451, "greylisted"⟩)) =
      some "tier=4" := by
  decide

/-- C5 (amended). Tier stamping: whatever a ladder step publishes is the serialisation of
the job with its tier field set to the chosen tier, sent to the exchange of the object
the binding holds for that same tier; whatever the code-451 rule publishes is the
serialisation of the job as the Sender left it, tier field unchanged, sent to the exchange
of the shared thirty-minutes object. -/
theorem tier_stamping (env : Env) (w : World) (this : ConsumerApplication) (Body : String)
    (m0 message : MailMessage) (hbody : env.Unmarshal Body = some m0)
    (hsend : env.SendMail m0 = (message, false)) :
    (message.Error = none →
      ∀ exchange key body,
        BrokerCall.Publish exchange key body ∈ brokerCalls (handleDelivery env w this Body) →
        ∃ d, delayedOf w this.binding (chooseBindingType message) = some d ∧
          exchange = d.Exchange ∧
          env.Marshal { message with BindingType := chooseBindingType message } = some body) ∧
    (∀ error, message.Error = some error → error.Code = 451 →
      ∀ exchange key body,
        BrokerCall.Publish exchange key body ∈ brokerCalls (handleDelivery env w this Body) →
        ∃ d, w.delayedBindings.lookup DELAYED_BINDING_THIRTY_MINUTES = some d ∧
          exchange = d.Exchange ∧ env.Marshal message = some body) := by
  constructor
  · intro herr exchange key body hmem
    rw [brokerCalls_failed env w this Body m0 message hbody hsend,
      brokerCalls_transient env w this message herr] at hmem
    cases hd : delayedOf w this.binding (chooseBindingType message) with
    | none => rw [hd] at hmem; simp at hmem
    | some d =>
      rw [hd] at hmem
      cases hm : env.Marshal { message with BindingType := chooseBindingType message } with
      | none => rw [hm] at hmem; simp at hmem
      | some payload =>
        rw [hm] at hmem
        simp at hmem
        exact ⟨d, rfl, hmem.1, by rw [hmem.2.2]⟩
  · intro error herr hcode exchange key body hmem
    rw [brokerCalls_failed env w this Body m0 message hbody hsend,
      brokerCalls_rejected env w this message error herr] at hmem
    have hf : chooseFailBinding w this error =
        w.delayedBindings.lookup DELAYED_BINDING_THIRTY_MINUTES := by
      simp [chooseFailBinding, hcode]
    rw [hf] at hmem
    cases hd : w.delayedBindings.lookup DELAYED_BINDING_THIRTY_MINUTES with
    | none => rw [hd] at hmem; simp at hmem
    | some d =>
      rw [hd] at hmem
      cases hm : env.Marshal message with
      | none => rw [hm] at hmem; simp at hmem
      | some payload =>
        rw [hm] at hmem
        simp at hmem
        exact ⟨d, rfl, hmem.1, by rw [hmem.2.2]⟩

/-- C5 (amended) at a sample: the ladder step from tier second publishes a payload with
tier minute to the exchange of the minute object of the binding. -/
theorem tier_stamping_witness :
    ∃ d, delayedOf sampleWorld sampleApp.binding
        (chooseBindingType (sampleJob DELAYED_BINDING_SECOND false none)) = some d ∧
      "mail.dlx.minute" = d.Exchange ∧
      (sampleEnv (sampleJob DELAYED_BINDING_SECOND false none) false).Marshal
        { sampleJob DELAYED_BINDING_SECOND false none with
          BindingType := chooseBindingType (sampleJob DELAYED_BINDING_SECOND false none) } =
        some "tier=2" :=
  (tier_stamping (sampleEnv (sampleJob DELAYED_BINDING_SECOND false none) false) sampleWorld
    sampleApp "job" (sampleJob DELAYED_BINDING_SECOND false none)
    (sampleJob DELAYED_BINDING_SECOND false none) rfl rfl).1 rfl
    "mail.dlx.minute" "" "tier=2" (by decide)

/-- C6, at the failing input: with two bindings a and b on one endpoint, the object that
binding a holds for tier second carries the names of b, and dead-letters into the
exchange of b; so does each of its seven delayed objects. -/
theorem first_binding_holds_names_of_last :
    (OnInit 30 twoBindings).bindings.map (fun b =>
      (b.Exchange, b.Queue,
        (delayedOf (OnInit 30 twoBindings) b DELAYED_BINDING_SECOND).map (fun d =>
          (d.Exchange, d.Queue, tableGet d.QueueArgs "x-dead-letter-exchange")))) =
      [ ("a", "a", some ("b.dlx.second", "b.dlx.second", some (.str "b"))),
        ("b", "b", some ("b.dlx.second", "b.dlx.second", some (.str "b"))) ] ∧
    (OnInit 30 twoBindings).bindings.map (fun b =>
      (b.Exchange,
        ([1, 2, 3, 4, 5, 6, 7] : List Int).filterMap (fun t =>
          (delayedOf (OnInit 30 twoBindings) b t).map (fun d => d.Exchange)),
        b.failBinding.map (fun d => d.Exchange))) =
      [ ("a", ["b.dlx.second", "b.dlx.minute", "b.dlx.ten.minutes", "b.dlx.thirty.minutes",
          "b.dlx.hour", "b.dlx.six.hours", "b.dlx.day"], some "a.fail"),
        ("b", ["b.dlx.second", "b.dlx.minute", "b.dlx.ten.minutes", "b.dlx.thirty.minutes",
          "b.dlx.hour", "b.dlx.six.hours", "b.dlx.day"], some "b.fail") ] := by
  exact ⟨rfl, by decide⟩

/-- The queues one iteration of `OnInit` declares are the nine of the specification. -/
theorem queueDeclarations_topologyCalls (b : Binding) :
    queueDeclarations (topologyCalls b) = specQueues b.Exchange b.Queue b.QueueArgs :=
  rfl

/-- The nine queues are bound to the exchanges of the specification. -/
theorem queueExchanges_topologyCalls (b : Binding) :
    queueExchanges (topologyCalls b) = specExchanges b.Exchange b.Queue :=
  rfl

/-- Every object of the shared map has an empty routing key. -/
theorem lookup_reachable_routing {g : List (DelayedBindingType × Descriptor)}
    (hg : Reachable g) (t : Int) (d : Descriptor) (h : g.lookup t = some d) :
    d.Routing = "" := by
  by_cases hr : 1 ≤ t ∧ t ≤ 7
  · obtain ⟨d2, hd2, hrt⟩ := lookup_reachable_some hg t hr.1 hr.2
    rw [h] at hd2
    cases hd2
    exact hrt
  · have hn := lookup_reachable_none hg t (by omega)
    rw [h] at hn
    cases hn

/-- C9, as the specification states it, fails: the binding is configured with routing key
k, and the ladder republish of a job consumed from it uses the empty routing key. -/
theorem republish_uses_empty_routing_key :
    sampleApp.binding.Routing = "k" ∧
    sampleApp.binding ∈ sampleWorld.bindings ∧
    brokerCalls (handleDelivery (sampleEnv (sampleJob DELAYED_BINDING_SECOND false none) false)
      sampleWorld sampleApp "job") = [.Publish "mail.dlx.minute" "" "tier=2", .Ack true] :=
  ⟨rfl, sampleApp_mem, by decide⟩

/-- C9 (amended). Republish routing key: on a built topology, every publish of a ladder
step uses the routing key of the delayed object, which is the empty string whatever
routing key the binding is configured with. -/
theorem ladder_routing_key (env : Env) (mailersCount : Int)
    (cfgs : List ConsumerApplicationConfig) (this : ConsumerApplication) (Body : String)
    (m0 message : MailMessage)
    (hthis : this.binding ∈ (OnInit mailersCount cfgs).bindings)
    (hbody : env.Unmarshal Body = some m0) (hsend : env.SendMail m0 = (message, false))
    (herr : message.Error = none) :
    ∀ exchange key body,
      BrokerCall.Publish exchange key body ∈
        brokerCalls (handleDelivery env (OnInit mailersCount cfgs) this Body) →
      key = "" := by
  intro exchange key body hmem
  obtain ⟨b0, _, hb⟩ := built_of_mem hthis
  have hw := OnInit_reachable mailersCount cfgs
  rw [brokerCalls_failed env _ this Body m0 message hbody hsend,
    brokerCalls_transient env _ this message herr, hb, delayedOf_built _ _ hw] at hmem
  cases hd : (OnInit mailersCount cfgs).delayedBindings.lookup (chooseBindingType message) with
  | none => rw [hd] at hmem; simp at hmem
  | some d =>
    rw [hd] at hmem
    have hr := lookup_reachable_routing hw _ d hd
    cases hm : env.Marshal { message with BindingType := chooseBindingType message } with
    | none => rw [hm] at hmem; simp at hmem
    | some payload =>
      rw [hm] at hmem
      simp at hmem
      rw [hmem.2.1, hr]

/-- C9 (amended) at a sample: the binding has routing key k, its ladder step publishes to
the minute exchange, and the key of that publish is empty. -/
theorem ladder_routing_key_witness :
    sampleApp.binding.Routing = "k" ∧
    sampleApp.binding ∈ (OnInit 30 sampleConfigs).bindings ∧
    (BrokerCall.Publish "mail.dlx.minute" "" "tier=2" ∈
      brokerCalls (handleDelivery (sampleEnv (sampleJob DELAYED_BINDING_SECOND false none) false)
        (OnInit 30 sampleConfigs) sampleApp "job")) ∧
    ("" : String) = "" :=
  ⟨rfl, sampleApp_mem, by decide,
    ladder_routing_key (sampleEnv (sampleJob DELAYED_BINDING_SECOND false none) false) 30
      sampleConfigs sampleApp "job" (sampleJob DELAYED_BINDING_SECOND false none)
      (sampleJob DELAYED_BINDING_SECOND false none) sampleApp_mem rfl rfl rfl
      "mail.dlx.minute" "" "tier=2" (by decide)⟩

theorem length_eq_zero_iff (s : String) : s.length = 0 ↔ s = "" := by
  constructor
  · intro h
    cases s with
    | mk d =>
      have hd : d = [] := List.length_eq_zero.mp h
      subst hd
      rfl
  · rintro rfl
    rfl

/-- The fields the defaults decide, for a configured binding. -/
theorem applyDefaults_fields (b : Binding) :
    ((applyDefaults b).Handlers, (applyDefaults b).Kind, (applyDefaults b).Exchange,
      (applyDefaults b).Queue) =
      (if b.Handlers = 0 then 1 else b.Handlers,
        if b.Kind = "" then "fanout" else b.Kind,
        if b.Name = "" then b.Exchange else b.Name,
        if b.Name = "" then b.Queue else b.Name) := by
  have hk : b.Kind.length = 0 ↔ b.Kind = "" := length_eq_zero_iff b.Kind
  have hn : b.Name.length > 0 ↔ ¬ b.Name = "" := by
    rw [← length_eq_zero_iff]; omega
  unfold applyDefaults
  by_cases h1 : b.Kind = "" <;> by_cases h2 : b.Name = "" <;> by_cases h3 : b.Handlers = 0 <;>
    simp [h1, h2, h3, hk, hn, EXCHANGE_TYPE_FANOUT]

/-- C10. Configuration defaults: after `OnInit`, binding after binding, the worker count
is 1 if the configured count was 0 and the configured count otherwise; the exchange kind
is fanout if none was configured and the configured kind otherwise; and if a name is
configured, the exchange name and the queue name are both that name (otherwise they are
the configured exchange and queue). -/
theorem configuration_defaults (mailersCount : Int) (cfgs : List ConsumerApplicationConfig) :
    (OnInit mailersCount cfgs).bindings.map
        (fun b => (b.Handlers, b.Kind, b.Exchange, b.Queue)) =
      (cfgs.flatMap (fun c => c.Bindings)).map (fun b =>
        (if b.Handlers = 0 then 1 else b.Handlers,
          if b.Kind = "" then "fanout" else b.Kind,
          if b.Name = "" then b.Exchange else b.Name,
          if b.Name = "" then b.Queue else b.Name)) := by
  rw [OnInit_bindings, List.map_map]
  apply List.map_congr_left
  intro b _
  exact applyDefaults_fields b

/-! ## Redelivery -/

/-- On a built topology a ladder step publishes exactly when the chosen tier is one of the
seven delayed tiers. -/
theorem ladderStep_built (mailersCount : Int) (cfgs : List ConsumerApplicationConfig)
    (this : ConsumerApplication) (message : MailMessage)
    (hthis : this.binding ∈ (OnInit mailersCount cfgs).bindings) :
    ladderStep (OnInit mailersCount cfgs) this message =
      if 1 ≤ chooseBindingType message ∧ chooseBindingType message ≤ 7 then
        some { message with BindingType := chooseBindingType message }
      else none := by
  obtain ⟨b0, _, hb⟩ := built_of_mem hthis
  have hw := OnInit_reachable mailersCount cfgs
  unfold ladderStep
  rw [hb, delayedOf_built _ _ hw]
  by_cases hr : 1 ≤ chooseBindingType message ∧ chooseBindingType message ≤ 7
  · obtain ⟨d, hd, _⟩ := lookup_reachable_some hw _ hr.1 hr.2
    rw [hd, if_pos hr]
  · have hn := lookup_reachable_none hw (chooseBindingType message)
      (by unfold DelayedBindingType at *; omega)
    rw [hn, if_neg hr]

/-- What a worker does on a failure without an error, in terms of the ladder step: nothing
but the acknowledgment when the step gives no message, and otherwise one publish of the
stamped message, if it serialises, before the acknowledgment. -/
theorem brokerCalls_ladderStep (env : Env) (w : World) (this : ConsumerApplication)
    (Body : String) (m0 message : MailMessage) (hbody : env.Unmarshal Body = some m0)
    (hsend : env.SendMail m0 = (message, false)) (herr : message.Error = none) :
    match ladderStep w this message with
    | none => brokerCalls (handleDelivery env w this Body) = [.Ack true]
    | some next =>
      ∃ d, delayedOf w this.binding (chooseBindingType message) = some d ∧
        brokerCalls (handleDelivery env w this Body) =
          (match env.Marshal next with
            | some body => [.Publish d.Exchange d.Routing body]
            | none => []) ++ [.Ack true] := by
  rw [brokerCalls_failed env w this Body m0 message hbody hsend,
    brokerCalls_transient env w this message herr]
  unfold ladderStep
  cases hd : delayedOf w this.binding (chooseBindingType message) with
  | none => rfl
  | some d => exact ⟨d, rfl, rfl⟩

/-- Each tier either has no successor in the chain and allows no republish, or has a
successor among the delayed tiers that allows one republish less. -/
theorem specEscalation_cases (t : Int) :
    (specEscalationNext t = none ∧ specEscalationSteps t = 0) ∨
    ∃ t2 : Int, specEscalationNext t = some t2 ∧ 1 ≤ t2 ∧ t2 ≤ 7 ∧
      specEscalationSteps t = specEscalationSteps t2 + 1 := by
  by_cases h0 : t = 0
  · subst h0; exact Or.inr ⟨1, by decide⟩
  by_cases h1 : t = 1
  · subst h1; exact Or.inr ⟨2, by decide⟩
  by_cases h2 : t = 2
  · subst h2; exact Or.inr ⟨3, by decide⟩
  by_cases h3 : t = 3
  · subst h3; exact Or.inr ⟨5, by decide⟩
  by_cases h5 : t = 5
  · subst h5; exact Or.inr ⟨6, by decide⟩
  · exact Or.inl (by simp [specEscalationNext, specEscalationSteps, h0, h1, h2, h3, h5])

theorem specEscalationSteps_le (t : Int) : specEscalationSteps t ≤ 5 := by
  unfold specEscalationSteps
  repeat' split
  all_goals decide

/-- Without overlimit, enough attempts end the ladder after the number of republishes the
chain allows. -/
theorem republishCount_escalation (mailersCount : Int)
    (cfgs : List ConsumerApplicationConfig) (this : ConsumerApplication)
    (hthis : this.binding ∈ (OnInit mailersCount cfgs).bindings) :
    ∀ (fuel : Nat) (message : MailMessage), message.Overlimit = false →
      specEscalationSteps message.BindingType < fuel →
      republishCount (OnInit mailersCount cfgs) this fuel message =
        some (specEscalationSteps message.BindingType) := by
  intro fuel
  induction fuel with
  | zero => intro message _ h; omega
  | succ fuel ih =>
    intro message hover hfuel
    have hc := chooseBindingType_escalation message hover
    have hstep := ladderStep_built mailersCount cfgs this message hthis
    rcases specEscalation_cases message.BindingType with ⟨hn, hs⟩ | ⟨t2, hn, h1, h7, hs⟩
    · rw [hn] at hc
      have hno : ¬ ((1 : Int) ≤ 0 ∧ (0 : Int) ≤ 7) := by decide
      rw [hc] at hstep
      rw [republishCount, hstep, Option.getD_none, if_neg hno, hs]
    · rw [hn] at hc
      rw [hc, Option.getD_some, if_pos ⟨h1, h7⟩] at hstep
      have hlt : specEscalationSteps t2 < fuel := by omega
      have hnext := ih { message with BindingType := t2 } hover hlt
      rw [republishCount, hstep]
      simp only [hnext, Option.map_some', hs]

/-- With overlimit and a tier of the limit list, the ladder step returns the job as it
is, so no number of attempts ends the ladder. -/
theorem republishCount_overlimit (mailersCount : Int)
    (cfgs : List ConsumerApplicationConfig) (this : ConsumerApplication)
    (message : MailMessage) (hthis : this.binding ∈ (OnInit mailersCount cfgs).bindings)
    (hover : message.Overlimit = true) (hmem : message.BindingType ∈ limitBindings) :
    ladderStep (OnInit mailersCount cfgs) this message = some message ∧
    ∀ fuel, republishCount (OnInit mailersCount cfgs) this fuel message = none := by
  have hc := chooseBindingType_overlimit message hover
  rw [if_pos hmem] at hc
  have hr := limitBindings_range message.BindingType hmem
  have hstep : ladderStep (OnInit mailersCount cfgs) this message = some message := by
    rw [ladderStep_built mailersCount cfgs this message hthis, hc, if_pos hr]
  refine ⟨hstep, ?_⟩
  intro fuel
  induction fuel with
  | zero => rfl
  | succ fuel ih => rw [republishCount, hstep]; simp only [ih, Option.map_none']

/-- With overlimit and a tier outside the limit list, the first attempt publishes
nothing. -/
theorem republishCount_overlimit_outside (mailersCount : Int)
    (cfgs : List ConsumerApplicationConfig) (this : ConsumerApplication)
    (message : MailMessage) (hthis : this.binding ∈ (OnInit mailersCount cfgs).bindings)
    (hover : message.Overlimit = true) (hmem : message.BindingType ∉ limitBindings) :
    ∀ fuel, 0 < fuel → republishCount (OnInit mailersCount cfgs) this fuel message = some 0 := by
  have hc := chooseBindingType_overlimit message hover
  rw [if_neg hmem] at hc
  have hno : ¬ ((1 : Int) ≤ 0 ∧ (0 : Int) ≤ 7) := by decide
  have hstep : ladderStep (OnInit mailersCount cfgs) this message = none := by
    rw [ladderStep_built mailersCount cfgs this message hthis, hc, if_neg hno]
  intro fuel hf
  cases fuel with
  | zero => omega
  | succ fuel => rw [republishCount, hstep]

/-- C11, as the specification states it, fails: a job at tier second with overlimit comes
out of the ladder step unchanged, so seven attempts in a row all republish it, more than
the five the claim allows; without overlimit a job at tier none is given up after five
republishes. -/
theorem overlimit_job_republished_without_end :
    ladderStep sampleWorld sampleApp (sampleJob DELAYED_BINDING_SECOND true none) =
      some (sampleJob DELAYED_BINDING_SECOND true none) ∧
    republishCount sampleWorld sampleApp 7 (sampleJob DELAYED_BINDING_SECOND true none) =
      none ∧
    republishCount sampleWorld sampleApp 7 (sampleJob DELAYED_BINDING_UNKNOWN false none) =
      some 5 := by
  decide

/-- C11 (amended). Retry ladders, on a built topology, when every attempt fails without
an error and the job comes back with the tier of the previous republish: without
overlimit the ladder ends, from every starting tier, after the number of republishes the
escalation chain allows, at most 5; with overlimit and a starting tier outside second,
minute, hour, day the first attempt already publishes nothing; with overlimit and a
starting tier among those four every attempt republishes the job to its same tier, so no
number of attempts ends the ladder. -/
theorem retry_ladders (mailersCount : Int) (cfgs : List ConsumerApplicationConfig)
    (this : ConsumerApplication) (message : MailMessage)
    (hthis : this.binding ∈ (OnInit mailersCount cfgs).bindings) :
    (message.Overlimit = false →
      specEscalationSteps message.BindingType ≤ 5 ∧
      ∀ fuel, specEscalationSteps message.BindingType < fuel →
        republishCount (OnInit mailersCount cfgs) this fuel message =
          some (specEscalationSteps message.BindingType)) ∧
    (message.Overlimit = true → message.BindingType ∉ limitBindings →
      ∀ fuel, 0 < fuel →
        republishCount (OnInit mailersCount cfgs) this fuel message = some 0) ∧
    (message.Overlimit = true → message.BindingType ∈ limitBindings →
      ladderStep (OnInit mailersCount cfgs) this message = some message ∧
      ∀ fuel, republishCount (OnInit mailersCount cfgs) this fuel message = none) :=
  ⟨fun hover => ⟨specEscalationSteps_le message.BindingType,
      fun fuel hf => republishCount_escalation mailersCount cfgs this hthis fuel message hover hf⟩,
    fun hover hmem =>
      republishCount_overlimit_outside mailersCount cfgs this message hthis hover hmem,
    fun hover hmem => republishCount_overlimit mailersCount cfgs this message hthis hover hmem⟩

/-- C11 (amended) at a sample: without overlimit a job at tier none is republished five
times within six attempts; with overlimit a job at tier minute comes out of the step
unchanged. -/
theorem retry_ladders_witness :
    sampleApp.binding ∈ (OnInit 30 sampleConfigs).bindings ∧
    republishCount (OnInit 30 sampleConfigs) sampleApp 6
      (sampleJob DELAYED_BINDING_UNKNOWN false none) = some 5 ∧
    ladderStep (OnInit 30 sampleConfigs) sampleApp (sampleJob DELAYED_BINDING_MINUTE true none) =
      some (sampleJob DELAYED_BINDING_MINUTE true none) :=
  ⟨sampleApp_mem,
    ((retry_ladders 30 sampleConfigs sampleApp (sampleJob DELAYED_BINDING_UNKNOWN false none)
      sampleApp_mem).1 rfl).2 6 (by decide),
    ((retry_ladders 30 sampleConfigs sampleApp (sampleJob DELAYED_BINDING_MINUTE true none)
      sampleApp_mem).2.2 rfl (by decide)).1⟩

/-! ## The workers that run -/

/-- The applications the loop over the bindings of one endpoint creates hold built
bindings of that endpoint and the sender count of the event; the loop leaves `appsByURI`
as it is. -/
theorem initBindings_apps (mailersCount : Int) (bs : List Binding) :
    ∀ w : World, Reachable w.delayedBindings →
      (initBindings mailersCount w bs).1.appsByURI = w.appsByURI ∧
      ∀ a ∈ (initBindings mailersCount w bs).2.2,
        a.binding ∈ bs.map builtBinding ∧ a.mailersCount = mailersCount := by
  induction bs with
  | nil => intro w _; simp [initBindings]
  | cons b rest ih =>
    intro w hw
    have hr : Reachable (initBinding mailersCount w b).1.delayedBindings := by
      rw [initBinding_eq mailersCount w b hw]
      exact Or.inr ⟨applyDefaults b, rfl⟩
    obtain ⟨h1, h2⟩ := ih (initBinding mailersCount w b).1 hr
    constructor
    · simp only [initBindings, h1]
      rw [initBinding_eq mailersCount w b hw]
    · intro a ha
      simp only [initBindings, List.mem_cons] at ha
      rcases ha with ha | ha
      · rw [initBinding_eq mailersCount w b hw] at ha
        subst ha
        exact ⟨List.mem_cons_self _ _, rfl⟩
      · obtain ⟨k1, k2⟩ := h2 a ha
        exact ⟨List.mem_cons_of_mem _ k1, k2⟩

theorem mem_assignApps (l : List (String × List ConsumerApplication)) (uri : String)
    (apps : List ConsumerApplication) (p : String × List ConsumerApplication)
    (h : p ∈ assignApps l uri apps) : p ∈ l ∨ p = (uri, apps) := by
  induction l with
  | nil =>
    simp only [assignApps, List.mem_singleton] at h
    exact Or.inr h
  | cons e rest ih =>
    obtain ⟨k, v⟩ := e
    by_cases hk : k = uri
    · simp only [assignApps, hk, if_true, List.mem_cons] at h
      rcases h with h | h
      · exact Or.inr h
      · exact Or.inl (List.mem_cons_of_mem _ h)
    · simp only [assignApps, hk, if_false, List.mem_cons] at h
      rcases h with h | h
      · exact Or.inl (h ▸ List.mem_cons_self _ _)
      · rcases ih h with h2 | h2
        · exact Or.inl (List.mem_cons_of_mem _ h2)
        · exact Or.inr h2

/-- Every application `OnInit` registers holds a binding of the built configuration and
the sender count of the event. -/
theorem foldl_initApp_apps (mailersCount : Int) (cfgs : List ConsumerApplicationConfig) :
    ∀ w : World, Reachable w.delayedBindings →
      (∀ p ∈ w.appsByURI, ∀ a ∈ p.2, a.binding ∈ w.bindings ∧ a.mailersCount = mailersCount) →
      ∀ p ∈ (cfgs.foldl (initApp mailersCount) w).appsByURI, ∀ a ∈ p.2,
        a.binding ∈ (cfgs.foldl (initApp mailersCount) w).bindings ∧
        a.mailersCount = mailersCount := by
  induction cfgs with
  | nil => intro w _ h; simpa using h
  | cons c rest ih =>
    intro w hw hinv
    obtain ⟨h1, _, h3, h4, _⟩ := initBindings_spec mailersCount c.Bindings w hw
    obtain ⟨a1, a2⟩ := initBindings_apps mailersCount c.Bindings w hw
    have hr : Reachable (initApp mailersCount w c).delayedBindings := by
      simpa [initApp] using h1
    have hb : (initApp mailersCount w c).bindings =
        w.bindings ++ c.Bindings.map builtBinding := by
      simp [initApp, World.bindings, h3, h4]
    rw [List.foldl_cons]
    apply ih (initApp mailersCount w c) hr
    intro p hp a ha
    have hp2 : p ∈ assignApps w.appsByURI c.URI (initBindings mailersCount w c.Bindings).2.2 := by
      simpa [initApp, a1] using hp
    rw [hb]
    rcases mem_assignApps _ _ _ _ hp2 with hold | hnew
    · obtain ⟨k1, k2⟩ := hinv p hold a ha
      exact ⟨List.mem_append_left _ k1, k2⟩
    · subst hnew
      obtain ⟨k1, k2⟩ := a2 a ha
      exact ⟨List.mem_append_right _ k1, k2⟩

theorem OnInit_apps (mailersCount : Int) (cfgs : List ConsumerApplicationConfig)
    (p : String × List ConsumerApplication) (hp : p ∈ (OnInit mailersCount cfgs).appsByURI)
    (a : ConsumerApplication) (ha : a ∈ p.2) :
    a.binding ∈ (OnInit mailersCount cfgs).bindings ∧ a.mailersCount = mailersCount :=
  foldl_initApp_apps mailersCount cfgs World.start reachable_start
    (by intro q hq; simp [World.start] at hq) p hp a ha

theorem length_le_sum (l : List Int) (h : ∀ x ∈ l, 1 ≤ x) : (l.length : Int) ≤ l.sum := by
  induction l with
  | nil => simp
  | cons x rest ih =>
    have hx := h x (List.mem_cons_self _ _)
    have hrest := ih (fun y hy => h y (List.mem_cons_of_mem _ hy))
    simp only [List.length_cons, List.sum_cons, Nat.cast_add, Nat.cast_one]
    omega

theorem applyDefaults_handlers (b : Binding) :
    (applyDefaults b).Handlers = if b.Handlers = 0 then 1 else b.Handlers :=
  congrArg Prod.fst (applyDefaults_fields b)

/-! ## Integer range -/

theorem wrapInt_of_range (x : Int) (h1 : -maxInt - 1 ≤ x) (h2 : x ≤ maxInt) :
    wrapInt x = x := by
  unfold wrapInt
  unfold maxInt at h1 h2
  omega

/-- Additions that stay within the range of `int` do not wrap. -/
theorem wrapSum_eq_sum (l : List Int) :
    ∀ acc : Int, 0 ≤ acc → (∀ x ∈ l, 0 ≤ x) → acc + l.sum ≤ maxInt →
      wrapSum acc l = acc + l.sum := by
  induction l with
  | nil => intro acc _ _ _; simp [wrapSum]
  | cons x rest ih =>
    intro acc hacc hall hsum
    have hx : 0 ≤ x := hall x (List.mem_cons_self _ _)
    have hrest : ∀ y ∈ rest, 0 ≤ y := fun y hy => hall y (List.mem_cons_of_mem _ hy)
    have hnn : 0 ≤ rest.sum := List.sum_nonneg hrest
    rw [List.sum_cons] at hsum
    have hw : wrapInt (acc + x) = acc + x :=
      wrapInt_of_range _ (by unfold maxInt; omega) (by omega)
    rw [wrapSum, hw, ih (acc + x) (by omega) hrest (by omega), List.sum_cons]
    omega

/-- With more senders than workers, at least one worker, and a product within the range
of `int`, the prefetch count is three times the quotient. -/
theorem prefetchCount_of_range (m h : Int) (hh : 1 ≤ h) (hm : h < m)
    (hb : (m / h) * 3 ≤ maxInt) :
    prefetchCount m h = some ((m / h) * 3) ∧ 1 ≤ m / h := by
  have hz : h ≠ 0 := by omega
  have hq : 1 ≤ m / h := (Int.le_ediv_iff_mul_le (by omega)).mpr (by omega)
  have hw : wrapInt ((m / h) * 3) = (m / h) * 3 :=
    wrapInt_of_range _ (by unfold maxInt; omega) hb
  refine ⟨?_, hq⟩
  unfold prefetchCount
  rw [if_pos hm, if_neg hz, Int.tdiv_eq_ediv (by omega) (by omega), hw]

/-- C8, as the specification states it, fails: with the largest `int` as the sender count
and one worker, three times the quotient is 27670116110564327421, and the code computes
9223372036854775805. -/
theorem prefetch_product_wraps :
    prefetchCount 9223372036854775807 1 = some 9223372036854775805 ∧
    ((9223372036854775807 : Int) / 1) * 3 = 27670116110564327421 := by
  decide

/-- C8 (amended). Prefetch sizing: with at least one worker in total, the prefetch count
is 1 when the senders are no more than the workers, and otherwise three times the integer
quotient of senders by workers reduced to a 64-bit `int`; it is exactly three times the
quotient whenever that product is at most the largest `int`; 30 senders and 10 workers
give 9. -/
theorem prefetch_sizing (m h : Int) (hh : 1 ≤ h) :
    prefetchCount m h = some (if m ≤ h then 1 else wrapInt ((m / h) * 3)) ∧
    ((m / h) * 3 ≤ maxInt →
      prefetchCount m h = some (if m ≤ h then 1 else (m / h) * 3)) ∧
    prefetchCount 30 10 = some 9 := by
  by_cases hm : m > h
  · have hz : h ≠ 0 := by omega
    have hle : ¬ m ≤ h := by omega
    refine ⟨?_, ?_, by decide⟩
    · unfold prefetchCount
      rw [if_pos hm, if_neg hz, if_neg hle, Int.tdiv_eq_ediv (by omega) (by omega)]
    · intro hb
      rw [if_neg hle]
      exact (prefetchCount_of_range m h hh hm hb).1
  · have hle : m ≤ h := by omega
    refine ⟨?_, ?_, by decide⟩
    · unfold prefetchCount
      rw [if_neg hm, if_pos hle]
    · intro _
      unfold prefetchCount
      rw [if_neg hm, if_pos hle]

/-- C8 (amended) at a sample: 7 senders and 2 workers give 9, and 2 senders and 7 workers
give 1. -/
theorem prefetch_sizing_witness :
    (1 : Int) ≤ 2 ∧ prefetchCount 7 2 = some 9 ∧ prefetchCount 2 7 = some 1 :=
  ⟨by decide, (prefetch_sizing 7 2 (by decide)).2.1 (by decide),
    (prefetch_sizing 2 7 (by decide)).2.1 (by decide)⟩

/-- C12, as the specification states it, fails: with 3074457345618258603 senders and one
worker the code computes the prefetch count -9223372036854775807, which is below 3 and
does not exceed the senders. -/
theorem prefetch_wraps_below_senders :
    (1 : Int) < 3074457345618258603 ∧
    prefetchCount 3074457345618258603 1 = some (-9223372036854775807) ∧
    (1 : Int) * (-9223372036854775807) < 3074457345618258603 := by
  decide

/-- C12 (amended). Prefetch keeps more jobs in flight than there are senders: with more
senders than workers, at least one worker, and three times the integer quotient of senders
by workers at most the largest `int`, the prefetch count is computed, equals that product,
is at least 3, and the workers times the prefetch count exceed the senders. -/
theorem prefetch_exceeds_senders (m h : Int) (hh : 1 ≤ h) (hm : h < m)
    (hb : (m / h) * 3 ≤ maxInt) :
    ∃ p, prefetchCount m h = some p ∧ p = (m / h) * 3 ∧ m < h * p ∧ 3 ≤ p := by
  obtain ⟨hp, hq⟩ := prefetchCount_of_range m h hh hm hb
  have hdiv : h * (m / h) + m % h = m := Int.ediv_add_emod m h
  have hmod : m % h < h := Int.emod_lt_of_pos m (by omega)
  have hmul : h * 1 ≤ h * (m / h) := Int.mul_le_mul_of_nonneg_left hq (by omega)
  refine ⟨(m / h) * 3, hp, rfl, ?_, by omega⟩
  have e : h * (m / h * 3) = 3 * (h * (m / h)) := by ring
  rw [e]
  omega

/-- C12 (amended) at a sample: 30 senders and 10 workers give the prefetch count 9, and 10
times 9 exceeds 30. -/
theorem prefetch_exceeds_senders_witness :
    ∃ p, prefetchCount 30 10 = some p ∧ p = (30 / 10) * 3 ∧ 30 < 10 * p ∧ 3 ≤ p :=
  prefetch_exceeds_senders 30 10 (by decide) (by decide) (by decide)

/-- With at least one worker in total and three times the sender count within the range
of `int`, the prefetch count is computed and is at least 1. -/
theorem prefetchCount_pos (m h : Int) (hh : 1 ≤ h) (hm3 : m * 3 ≤ maxInt) :
    ∃ n, prefetchCount m h = some n ∧ 1 ≤ n := by
  by_cases hm : m > h
  · have hle : m / h ≤ m := Int.ediv_le_self h (by omega)
    obtain ⟨hp, hq⟩ := prefetchCount_of_range m h hh hm (by omega)
    exact ⟨m / h * 3, hp, by omega⟩
  · unfold prefetchCount
    rw [if_neg hm]
    exact ⟨1, rfl, le_refl 1⟩

/-- C13, as the specification states it, fails: the worker counts `maxInt` and 1 are
non-negative, their total wraps to the least `int`, and with 30 senders the prefetch count
is 0; the worker counts `maxInt`, `maxInt` and 2 are non-negative, their total wraps to 0,
and the prefetch computation divides by zero. -/
theorem worker_total_wraps :
    (∀ b ∈ overflowConfigs.flatMap (fun c => c.Bindings), 0 ≤ b.Handlers) ∧
    (OnInit 30 overflowConfigs).consumerHandlers = -9223372036854775808 ∧
    prefetchCount 30 (OnInit 30 overflowConfigs).consumerHandlers = some 0 ∧
    (∀ b ∈ zeroSumConfigs.flatMap (fun c => c.Bindings), 0 ≤ b.Handlers) ∧
    (OnInit 30 zeroSumConfigs).consumerHandlers = 0 ∧
    prefetchCount 30 (OnInit 30 zeroSumConfigs).consumerHandlers = none := by
  decide

/-- C13 (amended). Prefetch division is guarded: if every configured worker count is
non-negative, the worker counts with the default applied (1 for 0) sum to at most the
largest `int`, and three times the sender count is at most the largest `int`, then after
`OnInit` every binding has a worker count of at least 1, the package-level total
`consumerHandlers` is the sum of the worker counts of the bindings and is at least the
number of bindings, and for every application `OnInit` registers the total is at least 1,
so the prefetch count of its workers is computed, without a division by zero, and is at
least 1. -/
theorem prefetch_division_guarded (mailersCount : Int)
    (cfgs : List ConsumerApplicationConfig)
    (hnonneg : ∀ b ∈ cfgs.flatMap (fun c => c.Bindings), 0 ≤ b.Handlers)
    (hsum : ((cfgs.flatMap (fun c => c.Bindings)).map
      (fun b => if b.Handlers = 0 then 1 else b.Handlers)).sum ≤ maxInt)
    (hsenders : mailersCount * 3 ≤ maxInt) :
    (∀ b ∈ (OnInit mailersCount cfgs).bindings, 1 ≤ b.Handlers) ∧
    (OnInit mailersCount cfgs).consumerHandlers =
      ((OnInit mailersCount cfgs).bindings.map (fun b => b.Handlers)).sum ∧
    ((OnInit mailersCount cfgs).bindings.length : Int) ≤
      (OnInit mailersCount cfgs).consumerHandlers ∧
    ∀ p ∈ (OnInit mailersCount cfgs).appsByURI, ∀ this ∈ p.2,
      1 ≤ (OnInit mailersCount cfgs).consumerHandlers ∧
      ∃ n, prefetchCount this.mailersCount (OnInit mailersCount cfgs).consumerHandlers =
        some n ∧ 1 ≤ n := by
  have hdef : (cfgs.flatMap (fun c => c.Bindings)).map (fun b => (applyDefaults b).Handlers) =
      (cfgs.flatMap (fun c => c.Bindings)).map
        (fun b => if b.Handlers = 0 then 1 else b.Handlers) :=
    List.map_congr_left (fun b _ => applyDefaults_handlers b)
  have h1 : ∀ b ∈ (OnInit mailersCount cfgs).bindings, 1 ≤ b.Handlers := by
    intro b hb
    obtain ⟨b0, hb0, rfl⟩ := built_of_mem hb
    have h0 := hnonneg b0 hb0
    have hd : (builtBinding b0).Handlers = if b0.Handlers = 0 then 1 else b0.Handlers :=
      applyDefaults_handlers b0
    rw [hd]
    split <;> omega
  have hbind : (OnInit mailersCount cfgs).bindings.map (fun b => b.Handlers) =
      (cfgs.flatMap (fun c => c.Bindings)).map
        (fun b => if b.Handlers = 0 then 1 else b.Handlers) := by
    rw [OnInit_bindings, List.map_map, ← hdef]
    rfl
  have hall : ∀ x ∈ (OnInit mailersCount cfgs).bindings.map (fun b => b.Handlers), 1 ≤ x := by
    intro x hx
    obtain ⟨b, hb, rfl⟩ := List.mem_map.mp hx
    exact h1 b hb
  have h2 : (OnInit mailersCount cfgs).consumerHandlers =
      ((OnInit mailersCount cfgs).bindings.map (fun b => b.Handlers)).sum := by
    rw [OnInit_consumerHandlers, hdef, ← hbind]
    rw [wrapSum_eq_sum _ 0 (le_refl 0) (fun x hx => by have := hall x hx; omega)
      (by rw [hbind]; omega)]
    omega
  have h3 : ((OnInit mailersCount cfgs).bindings.length : Int) ≤
      (OnInit mailersCount cfgs).consumerHandlers := by
    rw [h2]
    have hl := length_le_sum _ hall
    rwa [List.length_map] at hl
  refine ⟨h1, h2, h3, ?_⟩
  intro p hp this hthis
  obtain ⟨hmem, hmc⟩ := OnInit_apps mailersCount cfgs p hp this hthis
  have hpos : 0 < (OnInit mailersCount cfgs).bindings.length := List.length_pos_of_mem hmem
  have hh : 1 ≤ (OnInit mailersCount cfgs).consumerHandlers := by omega
  exact ⟨hh, prefetchCount_pos _ _ hh (by rw [hmc]; exact hsenders)⟩

/-- C13 (amended) at a sample: with worker counts omitted, 3 and 2 on two endpoints, the
total is 6 for 3 bindings, and with 30 senders every worker computes the prefetch count
15. -/
theorem prefetch_division_guarded_witness :
    (OnInit 30 workerConfigs).consumerHandlers = 6 ∧
    prefetchCount 30 (OnInit 30 workerConfigs).consumerHandlers = some 15 ∧
    ((∀ b ∈ (OnInit 30 workerConfigs).bindings, 1 ≤ b.Handlers) ∧
      (OnInit 30 workerConfigs).consumerHandlers =
        ((OnInit 30 workerConfigs).bindings.map (fun b => b.Handlers)).sum ∧
      ((OnInit 30 workerConfigs).bindings.length : Int) ≤
        (OnInit 30 workerConfigs).consumerHandlers ∧
      ∀ p ∈ (OnInit 30 workerConfigs).appsByURI, ∀ this ∈ p.2,
        1 ≤ (OnInit 30 workerConfigs).consumerHandlers ∧
        ∃ n, prefetchCount this.mailersCount (OnInit 30 workerConfigs).consumerHandlers =
          some n ∧ 1 ≤ n) :=
  ⟨by decide, by decide,
    prefetch_division_guarded 30 workerConfigs (by decide) (by decide) (by decide)⟩

/-- The first hypothesis of C13 is needed: with the worker counts -1 and 1 the total is 0,
and the prefetch computation of a worker divides by zero. -/
theorem negative_worker_count_unguarded :
    (OnInit 30 negativeConfigs).consumerHandlers = 0 ∧
    prefetchCount 30 (OnInit 30 negativeConfigs).consumerHandlers = none := by
  decide

/-! ## Topology declarations in any visiting order -/

/-- The shared map while `OnInitIn` runs: its entries are, in some order, the initial ones
or the ones rewritten for some binding. -/
theorem perm_rewriteAll (b : Binding) {g : List (DelayedBindingType × Descriptor)}
    (hg : g.Perm delayedBindings ∨ ∃ b2 : Binding, g.Perm (rewriteAll b2 delayedBindings)) :
    (rewriteAll b g).Perm (rewriteAll b delayedBindings) := by
  rcases hg with h | ⟨b2, h⟩
  · exact h.map _
  · have h2 := h.map (fun p => (p.1, rewriteDelayed b p.2))
    have e : List.map (fun p => (p.1, rewriteDelayed b p.2)) (rewriteAll b2 delayedBindings) =
        rewriteAll b delayedBindings := rewriteAll_rewriteAll b b2 delayedBindings
    rw [e] at h2
    exact h2

theorem applyDefaults_queueArgs (b : Binding) : (applyDefaults b).QueueArgs = b.QueueArgs := by
  unfold applyDefaults
  by_cases h1 : b.Kind.length = 0 <;> by_cases h2 : b.Name.length > 0 <;>
    by_cases h3 : b.Handlers = 0 <;> simp [h1, h2, h3]

theorem applyDefaults_names (b : Binding) :
    (applyDefaults b).Exchange = specExchangeName b ∧
    (applyDefaults b).Queue = specQueueName b := by
  have h := applyDefaults_fields b
  simp only [Prod.mk.injEq] at h
  exact ⟨h.2.2.1, h.2.2.2⟩

/-- One iteration in any visiting order: the shared map stays a rearrangement of a
rewritten map, and the calls added declare, in some order, the nine queues of the
specification for the configured binding, each bound to its exchange. -/
theorem initBindingIn_spec (order : RangeOrder) (horder : ∀ n g, (order n g).Perm g)
    (mailersCount : Int) (w : World) (b : Binding)
    (hw : w.delayedBindings.Perm delayedBindings ∨
      ∃ b2 : Binding, w.delayedBindings.Perm (rewriteAll b2 delayedBindings)) :
    (∃ b2 : Binding, (initBindingIn order mailersCount w b).1.delayedBindings.Perm
      (rewriteAll b2 delayedBindings)) ∧
    ∃ segment : List BrokerCall,
      (initBindingIn order mailersCount w b).1.calls = w.calls ++ segment ∧
      (queueDeclarations segment).Perm
        (specQueues (specExchangeName b) (specQueueName b) b.QueueArgs) ∧
      (queueExchanges segment).Perm (specExchanges (specExchangeName b) (specQueueName b)) := by
  have hg : (order w.appsCount w.delayedBindings).Perm delayedBindings ∨
      ∃ b2 : Binding, (order w.appsCount w.delayedBindings).Perm
        (rewriteAll b2 delayedBindings) := by
    rcases hw with h | ⟨b2, h⟩
    · exact Or.inl ((horder _ _).trans h)
    · exact Or.inr ⟨b2, (horder _ _).trans h⟩
  have hp := perm_rewriteAll (applyDefaults b) hg
  have hseg : (declare (applyDefaults b).toDescriptor ++
      (rewriteAll (applyDefaults b) (order w.appsCount w.delayedBindings)).flatMap
        (fun p => declare p.2) ++ declare (newFailBinding (applyDefaults b))).Perm
      (topologyCalls (applyDefaults b)) :=
    ((List.Perm.refl _).append (hp.flatMap_right _)).append (List.Perm.refl _)
  obtain ⟨hE, hQ⟩ := applyDefaults_names b
  refine ⟨⟨applyDefaults b, ?_⟩,
    declare (applyDefaults b).toDescriptor ++
      (rewriteAll (applyDefaults b) (order w.appsCount w.delayedBindings)).flatMap
        (fun p => declare p.2) ++ declare (newFailBinding (applyDefaults b)), ?_, ?_, ?_⟩
  · simpa only [initBindingIn, initBinding, declareDelayed_eq] using hp
  · simp only [initBindingIn, initBinding, declareDelayed_eq, List.append_assoc]
  · have h : (queueDeclarations _).Perm (queueDeclarations (topologyCalls (applyDefaults b))) :=
      hseg.filterMap _
    have e := queueDeclarations_topologyCalls (applyDefaults b)
    rw [hE, hQ, applyDefaults_queueArgs] at e
    rw [e] at h
    exact h
  · have h : (queueExchanges _).Perm (queueExchanges (topologyCalls (applyDefaults b))) :=
      hseg.filterMap _
    have e := queueExchanges_topologyCalls (applyDefaults b)
    rw [hE, hQ] at e
    rw [e] at h
    exact h

/-- The loop over the bindings of one endpoint, in any visiting order: the calls added
split into one segment for each binding, in the order of the configuration. -/
theorem initBindingsIn_spec (order : RangeOrder) (horder : ∀ n g, (order n g).Perm g)
    (mailersCount : Int) (bs : List Binding) :
    ∀ w : World,
      (w.delayedBindings.Perm delayedBindings ∨
        ∃ b2 : Binding, w.delayedBindings.Perm (rewriteAll b2 delayedBindings)) →
      ((initBindingsIn order mailersCount w bs).1.delayedBindings.Perm delayedBindings ∨
        ∃ b2 : Binding, (initBindingsIn order mailersCount w bs).1.delayedBindings.Perm
          (rewriteAll b2 delayedBindings)) ∧
      ∃ segments : List (List BrokerCall),
        (initBindingsIn order mailersCount w bs).1.calls = w.calls ++ segments.flatten ∧
        List.Forall₂ DeclaresTopology bs segments := by
  induction bs with
  | nil =>
    intro w hw
    exact ⟨hw, [], by simp [initBindingsIn], List.Forall₂.nil⟩
  | cons b rest ih =>
    intro w hw
    obtain ⟨hr, segment, hc, hq, he⟩ := initBindingIn_spec order horder mailersCount w b hw
    obtain ⟨hr2, segments, hc2, hall⟩ := ih (initBindingIn order mailersCount w b).1 (Or.inr hr)
    refine ⟨hr2, segment :: segments, ?_, List.Forall₂.cons ⟨?_, hq, he⟩ hall⟩
    · simp only [initBindingsIn, hc2, hc, List.flatten_cons, List.append_assoc]
    · rw [hq.length_eq]
      rfl

/-- The loop over the endpoints, in any visiting order. -/
theorem foldl_initAppIn_spec (order : RangeOrder) (horder : ∀ n g, (order n g).Perm g)
    (mailersCount : Int) (cfgs : List ConsumerApplicationConfig) :
    ∀ w : World,
      (w.delayedBindings.Perm delayedBindings ∨
        ∃ b2 : Binding, w.delayedBindings.Perm (rewriteAll b2 delayedBindings)) →
      ∃ segments : List (List BrokerCall),
        (cfgs.foldl (initAppIn order mailersCount) w).calls = w.calls ++ segments.flatten ∧
        List.Forall₂ DeclaresTopology (cfgs.flatMap (fun c => c.Bindings)) segments := by
  induction cfgs with
  | nil =>
    intro w _
    exact ⟨[], by simp, List.Forall₂.nil⟩
  | cons c rest ih =>
    intro w hw
    obtain ⟨hr, segs1, hc1, hall1⟩ := initBindingsIn_spec order horder mailersCount c.Bindings w hw
    have hr2 : (initAppIn order mailersCount w c).delayedBindings.Perm delayedBindings ∨
        ∃ b2 : Binding, (initAppIn order mailersCount w c).delayedBindings.Perm
          (rewriteAll b2 delayedBindings) := by
      simpa only [initAppIn] using hr
    have hcalls : (initAppIn order mailersCount w c).calls = w.calls ++ segs1.flatten := by
      simpa only [initAppIn] using hc1
    obtain ⟨segs2, hc2, hall2⟩ := ih (initAppIn order mailersCount w c) hr2
    refine ⟨segs1 ++ segs2, ?_, ?_⟩
    · rw [List.foldl_cons, hc2, hcalls, List.flatten_append, List.append_assoc]
    · rw [List.flatMap_cons]
      exact List.rel_append hall1 hall2

/-- With every range in tier order, `OnInitIn` is `OnInit`. -/
theorem OnInitIn_tier_order (mailersCount : Int) (cfgs : List ConsumerApplicationConfig) :
    OnInitIn (fun _ g => g) mailersCount cfgs = OnInit mailersCount cfgs := by
  have h1 : ∀ (bs : List Binding) (w : World),
      initBindingsIn (fun _ g => g) mailersCount w bs = initBindings mailersCount w bs := by
    intro bs
    induction bs with
    | nil => intro w; rfl
    | cons b rest ih =>
      intro w
      simp only [initBindingsIn, initBindings, initBindingIn, ih]
  have h2 : initAppIn (fun _ g => g) mailersCount = initApp mailersCount := by
    funext w c
    simp only [initAppIn, initApp, h1]
  simp only [OnInitIn, OnInit, h2]

/-- C7. Topology declarations: for every configuration, and whatever order the ranges over
the map of delayed bindings take, the broker calls of `OnInit` split into one segment for
each configured binding, in the order of the configuration, and the segment of a binding
with primary exchange E and queue Q declares exactly nine queues: in some order Q, the
seven delayed queues with the suffixes and time-to-live values of the table and
dead-letter exchange E, and Q.fail; each is bound to the exchange with the same suffix
applied to E.  The keys of the two arguments are x-message-ttl and
x-dead-letter-exchange. -/
theorem topology_declarations (order : RangeOrder) (horder : ∀ n g, (order n g).Perm g)
    (mailersCount : Int) (cfgs : List ConsumerApplicationConfig) :
    ∃ segments : List (List BrokerCall),
      (OnInitIn order mailersCount cfgs).calls = segments.flatten ∧
      List.Forall₂ DeclaresTopology (cfgs.flatMap (fun c => c.Bindings)) segments := by
  obtain ⟨segments, hc, hall⟩ :=
    foldl_initAppIn_spec order horder mailersCount cfgs World.start (Or.inl (List.Perm.refl _))
  exact ⟨segments, by simpa [OnInitIn, World.start] using hc, hall⟩

/-- C7 at a sample: with every range running from day down to second, the queues declared
for the sample binding are mail, the seven delayed queues from day to second, and
mail.fail, and the calls split as the theorem says. -/
theorem topology_declarations_witness :
    (∀ n g, (reverseOrder n g).Perm g) ∧
    (queueDeclarations (OnInitIn reverseOrder 30 sampleConfigs).calls).map Prod.fst =
      ["mail", "mail.dlx.day", "mail.dlx.six.hours", "mail.dlx.hour",
        "mail.dlx.thirty.minutes", "mail.dlx.ten.minutes", "mail.dlx.minute",
        "mail.dlx.second", "mail.fail"] ∧
    ∃ segments : List (List BrokerCall),
      (OnInitIn reverseOrder 30 sampleConfigs).calls = segments.flatten ∧
      List.Forall₂ DeclaresTopology (sampleConfigs.flatMap (fun c => c.Bindings)) segments :=
  ⟨fun _ g => List.reverse_perm g, by decide,
    topology_declarations reverseOrder (fun _ g => List.reverse_perm g) 30 sampleConfigs⟩

end Postmanq
